import Mathlib

/-!
The mdl interpreter of `my_main.c`.

A shallow embedding of the three passes of `my_main.c`:

* `first_pass`  : the scan for the animation commands (frames, basename, vary);
* `second_pass` : the table of knob values, one linked list per frame;
* `my_main`     : the frame loop and the dispatch on the opcode.

Conventions of the embedding.

* A C `double` is a rational number (exact arithmetic); the result of a
  division by zero, which in C is an infinity or a NaN, is `none`
  (`CDouble`).  Rounding and overflow of doubles are not modelled.
* A C `int` is an `Int`; no claim here depends on its overflow.
* The array `op[0 .. lastop-1]` is a `List Op`.
* A `for` loop over a range is a fold over the list of the indices it
  visits, in the order it visits them.
* An access `knobs[j]` outside the block that `calloc` allocates for the
  table is undefined behaviour in C; it is the failure `none` here.  So is a
  `sprintf` that does not fit the buffer `pic_name[128]`.
* A character of a name is one byte.
* Calls to the collaborators of the interpreter (draw, save, display, the
  symbol table, stdout) are recorded, in order, in the field `out` of the
  state.
-/

namespace Mdl

/-! ## Data model -/

/-- A C double: a finite value, or `none` for the non-finite result of a division by zero. -/
abbrev CDouble := Option ℚ

/-- The entries of `op[]`, one constructor per opcode used by `my_main.c`.
A symbol-table pointer `p` is the name of the symbol it points to; an optional
knob (`p` of move, scale and rotate, which may be `NULL`) is an `Option`. -/
inductive Op where
  | push
  | pop
  | move (d0 d1 d2 : ℚ) (p : Option String)
  | scale (d0 d1 d2 : ℚ) (p : Option String)
  | rotate (axis degrees : ℚ) (p : Option String)
  | box (x0 y0 z0 x1 y1 z1 : ℚ)
  | sphere (x y z r : ℚ)
  | torus (x y z r0 r1 : ℚ)
  | line (x0 y0 z0 x1 y1 z1 : ℚ)
  | save (p : String)
  | display
  | frames (num_frames : Int)
  | basename (p : String)
  | vary (p : String) (start_frame end_frame start_val end_val : ℚ)
  deriving DecidableEq

/-- One node of a per-frame linked list of knobs.

Modelled from the spec: `struct vary_node` is declared in `parser.h`, which is
not among the sources; a Knob Binding is a pair (name : string, value : number).
The name of a knob is taken to fit the buffer `knob->name`, so it is copied
whole. -/
structure vary_node where
  name : String
  value : CDouble
  deriving DecidableEq

/-- The table returned by `second_pass`: slot `f` is the linked list `knobs[f]`,
head first.  Only the slots of the allocated block exist (`table_slots`); the
frame loop reads the slots `f < num_frames`. -/
abbrev Knobs := Nat → List vary_node

/-- The two variables `num_frames` and `name` that `first_pass` sets. -/
structure Globals where
  num_frames : Int
  name : String
  deriving DecidableEq

/-- Modelled from the spec: the definition of the variable `num_frames` is not
among the sources (`my_main.c` only declares it); the spec gives the frame
count the default value 1. -/
def default_num_frames : Int := 1

/-- A call of one of the generators `add_sphere`, `add_torus`, `add_box`,
`add_edge`, with the arguments it receives. -/
inductive Prim where
  | sphere (x y z r step : ℚ)
  | torus (x y z r0 r1 step : ℚ)
  | box (x0 y0 z0 x1 y1 z1 : ℚ)
  | edge (x0 y0 z0 x1 y1 z1 : ℚ)
  deriving DecidableEq

/-- The matrix services of `matrix.c` that `my_main` calls, taken as
parameters: `mult a b` is the product `a * b` that `matrix_mult(a, b)` stores
in `b`, and `M_PI` is the constant of `math.h`. -/
structure MatrixLib (M : Type) where
  ident : M
  mult : M → M → M
  make_translate : ℚ → ℚ → ℚ → M
  make_scale : ℚ → ℚ → ℚ → M
  make_rotX : ℚ → M
  make_rotY : ℚ → M
  make_rotZ : ℚ → M
  M_PI : ℚ

/-- The observable calls of a run, in the order in which they are made.
`draw_polygons m pts` and `draw_lines m pts` receive the scratch matrix
`m * pts`; the lighting constants, which never change, are left out.
`save_extension` is the call of the SAVE case and `save_frame` the call
`save_extension(t, pic_name)` at the end of a frame. -/
inductive Event (M : Type) where
  | clear_screen
  | clear_zbuffer
  | printf (s : String)
  | printf_move (x y z : ℚ)
  | printf_scale (x y z : ℚ)
  | printf_rotate (axis theta : ℚ)
  | printf_knob (name : String)
  | print_knobs
  | set_value (name : String) (value : CDouble)
  | draw_polygons (m : M) (pts : List Prim)
  | draw_lines (m : M) (pts : List Prim)
  | save_extension (file : String)
  | display
  | save_frame (pic_name : String)
  | make_animation (name : String)
  deriving DecidableEq

/-- The mutable state of `my_main`: the stack `systems`, the scratch matrix
`tmp` (the list of the primitives it holds; `lastcol = 0` is the empty list),
the symbol table, and the calls made so far. -/
structure State (M : Type) where
  systems : List M
  tmp : List Prim
  symtab : String → Option CDouble
  out : List (Event M)

/-! ## first_pass -/

/-- The C call `strncpy(dst, src, n)`: at most `n` characters are copied. -/
def strncpy (src : String) (n : Nat) : String := String.mk (src.data.take n)

/-- The local variables of `first_pass` together with the two globals. -/
structure Scan where
  g : Globals
  vary_found : Bool
  frames_found : Bool
  name_found : Bool
  deriving DecidableEq

/-- One iteration of the loop of `first_pass`: the switch on the opcode. -/
def first_pass_step (s : Scan) : Op → Scan
  | .frames n => { s with g := { s.g with num_frames := n }, frames_found := true }
  | .basename p => { s with g := { s.g with name := strncpy p 128 }, name_found := true }
  | .vary _ _ _ _ _ => { s with vary_found := true }
  | _ => s

/-- The loop of `first_pass`. -/
def first_pass_scan (g : Globals) (ops : List Op) : Scan :=
  ops.foldl first_pass_step ⟨g, false, false, false⟩

/-- The function `first_pass`: `Except.error 1` is `exit(1)`; otherwise the
new values of the globals and the lines printed. -/
def first_pass (g : Globals) (ops : List Op) : Except Nat (Globals × List String) :=
  let s := first_pass_scan g ops
  if s.vary_found = true ∧ s.frames_found = false then
    Except.error 1
  else if s.frames_found = true ∧ s.name_found = false then
    Except.ok ({ s.g with name := strncpy "basename" 128 }, ["Basename used: basename\n"])
  else
    Except.ok (s.g, [])

/-! ## second_pass -/

/-- The conversion of a double to an int (`int j = start_frame`): truncation
toward zero. -/
def c_trunc (q : ℚ) : Int := if 0 ≤ q then ⌊q⌋ else ⌈q⌉

/-- The division of two doubles: non-finite when the divisor is zero. -/
def ddiv (a b : ℚ) : CDouble := if b = 0 then none else some (a / b)

/-- The value `d * (start_frame - j) + start_val` stored in the node of
frame `j`, with `d = (start_val - end_val)/(start_frame - end_frame)`. -/
def vary_value (start_frame end_frame start_val end_val : ℚ) (j : Int) : CDouble :=
  (ddiv (start_val - end_val) (start_frame - end_frame)).map
    (fun d => d * (start_frame - (j : ℚ)) + start_val)

/-- The value that the spec gives a VARY at frame `j`, in the words of the
spec: `v(j) = v0 + (v1 - v0) * (j - s) / (e - s)`.  It is not part of the code;
it is the value that `vary_value` is compared with. -/
def spec_vary_value (s e v0 v1 : ℚ) (j : Int) : ℚ :=
  v0 + (v1 - v0) * ((j : ℚ) - s) / (e - s)

/-- The values of `j` visited by `for(int j=start_frame; j<=end_frame; j++)`,
in order. -/
def frame_range (start_frame end_frame : ℚ) : List Int :=
  (List.range (⌊end_frame⌋ + 1 - c_trunc start_frame).toNat).map
    (fun (i : Nat) => c_trunc start_frame + (i : Int))

/-- The size of a node, in bytes.

Modelled from the spec: `struct vary_node` is declared in `parser.h`, which is
not among the sources.  A node holds the name of the knob, its value and the
pointer `next`; with a name buffer of 128 characters, as the buffers `name`
and `pic_name` of `my_main.c` have, a double of 8 bytes and a pointer of 8
bytes, a node takes 144 bytes. -/
def sizeof_vary_node : Int := 144

/-- The size of a pointer, in bytes: a slot `knobs[j]` of the table holds one
pointer. -/
def sizeof_pointer : Int := 8

/-- The number of slots of the block that
`calloc(num_frames, sizeof(struct vary_node))` allocates: the block has the
size of `num_frames` whole nodes, not of `num_frames` pointers, so it holds
more slots than frames. -/
def table_slots (num_frames : Int) : Int :=
  num_frames * sizeof_vary_node / sizeof_pointer

/-- The two statements `knob->next = knobs[j]; knobs[j] = knob;`: the node
becomes the head of the list of slot `j`.  The access fails outside the
allocated block. -/
def knobs_insert (num_frames : Int) (knobs : Knobs) (j : Int) (knob : vary_node) :
    Option Knobs :=
  if 0 ≤ j ∧ j < table_slots num_frames then
    some (fun f => if f = j.toNat then knob :: knobs f else knobs f)
  else none

/-- The body of the loop of `second_pass` for one operation. -/
def second_pass_step (num_frames : Int) (knobs : Knobs) : Op → Option Knobs
  | .vary p start_frame end_frame start_val end_val =>
      (frame_range start_frame end_frame).foldlM
        (fun kn j => knobs_insert num_frames kn j
          ⟨p, vary_value start_frame end_frame start_val end_val j⟩) knobs
  | _ => some knobs

/-- The function `second_pass`: the table starts with every slot `NULL`
(`calloc`). -/
def second_pass (num_frames : Int) (ops : List Op) : Option Knobs :=
  ops.foldlM (second_pass_step num_frames) (fun _ => [])

/-- The slots of the table that the loop of an operation reaches all lie
inside the allocated block. -/
def accesses_ok (num_frames : Int) : Op → Prop
  | .vary _ start_frame end_frame _ _ =>
      ∀ j ∈ frame_range start_frame end_frame, 0 ≤ j ∧ j < table_slots num_frames
  | _ => True

/-- The node that one operation adds to the list of frame `f`, if it adds one. -/
def node_at (f : Nat) : Op → Option vary_node
  | .vary p start_frame end_frame start_val end_val =>
      if (f : Int) ∈ frame_range start_frame end_frame then
        some ⟨p, vary_value start_frame end_frame start_val end_val f⟩
      else none
  | _ => none

/-! ## The collaborators of my_main -/

/-- Modelled from the spec: `stack.c` is not among the sources.  The
Transformation Stack is a stack of matrices, here top first; `new_stack` is a
single identity frame. -/
def new_stack {M : Type} (E : MatrixLib M) : List M := [E.ident]

/-- Modelled from the spec: `push` of `stack.c` (not among the sources) pushes
a duplicate of the current top.  An empty stack has no top: failure. -/
def push {M : Type} : List M → Option (List M)
  | [] => none
  | top :: rest => some (top :: top :: rest)

/-- Modelled from the spec: `pop` of `stack.c` (not among the sources) removes
the top; a pop that would empty the stack is a fatal structural error. -/
def pop {M : Type} : List M → Option (List M)
  | _ :: next :: rest => some (next :: rest)
  | _ => none

/-- Modelled from the spec: `peek` of `stack.c` (not among the sources) is the
top of the stack, which it leaves in place. -/
def peek {M : Type} : List M → Option M
  | [] => none
  | top :: _ => some top

/-- Modelled from the spec: `copy_matrix` of `matrix.c` (not among the
sources); the call `copy_matrix(tmp, peek(systems))` replaces the top of the
stack with the matrix `m`. -/
def set_top {M : Type} (m : M) : List M → Option (List M)
  | [] => none
  | _ :: rest => some (m :: rest)

/-- Modelled from the spec: `lookup_symbol` and `set_value` of `symtab.c` (not
among the sources); the Symbol Store maps a name to a value and
`set_value(lookup_symbol(name), value)` writes the value under the name. -/
def set_value {M : Type} (st : State M) (name : String) (value : CDouble) : State M :=
  { st with
    symtab := fun n => if n = name then some value else st.symtab n
    out := st.out ++ [Event.set_value name value] }

/-- The conversion `%03d` of `sprintf` for a frame index, which is never
negative: the decimal digits, padded with zeros on the left to 3 characters. -/
def fmt_03d (f : Nat) : String :=
  let ds := ((Nat.digits 10 f).reverse).map (fun d => Char.ofNat (48 + d))
  String.mk (List.replicate (3 - ds.length) (Char.ofNat 48) ++ ds)

/-- The characters that the format `"anim/%s%03d.png"` produces for the name
`name` and the frame `f`. -/
def pic_name_text (name : String) (f : Nat) : String :=
  "anim/" ++ name ++ fmt_03d f ++ ".png"

/-- The call `sprintf(pic_name, "anim/%s%03d.png", name, f)` with the local
buffer `char pic_name[128]` and the global buffer `char name[128]`.  The
contents of `name` are a string only when a zero byte ends them, that is when
they are shorter than 128 characters; and the characters produced, with the
zero byte that ends them, must fit the 128 bytes of `pic_name`.  Otherwise the
call reads or writes past the end of a buffer: failure. -/
def pic_name (name : String) (f : Nat) : Option String :=
  if name.length < 128 ∧ (pic_name_text name f).length < 128 then
    some (pic_name_text name f)
  else none

/-! ## my_main -/

/-- The local constant `step_3d`. -/
def step_3d : ℚ := 20

/-- The line `printf("\tknob: %s", p->name)`, printed when `p != NULL`. -/
def knob_line {M : Type} : Option String → List (Event M)
  | some k => [Event.printf_knob k]
  | none => []

/-- The common part of the cases SPHERE, TORUS and BOX: the primitive is added
to `tmp`, `tmp` is multiplied by the top of the stack and drawn, and
`tmp->lastcol = 0`. -/
def draw_solid {M : Type} (st : State M) (prim : Prim) : Option (State M) :=
  (peek st.systems).map fun top =>
    { st with tmp := [], out := st.out ++ [Event.draw_polygons top (st.tmp ++ [prim])] }

/-- The common part of the cases MOVE, SCALE and ROTATE after the transform
has been built: `matrix_mult(peek(systems), tmp); copy_matrix(tmp, peek(systems));
tmp->lastcol = 0;`. -/
def apply_transform {M : Type} (E : MatrixLib M) (st : State M) (transform : M)
    (out : List (Event M)) : Option (State M) :=
  (peek st.systems).bind fun top =>
    (set_top (E.mult top transform) st.systems).map fun systems =>
      { st with systems := systems, tmp := [], out := out }

/-- The switch on the opcode in the operation loop of `my_main`. -/
def exec_op {M : Type} (E : MatrixLib M) (st : State M) : Op → Option (State M)
  | .sphere x y z r => draw_solid st (Prim.sphere x y z r step_3d)
  | .torus x y z r0 r1 => draw_solid st (Prim.torus x y z r0 r1 step_3d)
  | .box x0 y0 z0 x1 y1 z1 => draw_solid st (Prim.box x0 y0 z0 x1 y1 z1)
  | .line x0 y0 z0 x1 y1 z1 =>
      (peek st.systems).map fun top =>
        { st with
          tmp := []
          out := st.out ++ [Event.draw_lines top (st.tmp ++ [Prim.edge x0 y0 z0 x1 y1 z1])] }
  | .move d0 d1 d2 p =>
      apply_transform E st (E.make_translate d0 d1 d2)
        (st.out ++ [Event.printf_move d0 d1 d2] ++ knob_line p)
  | .scale d0 d1 d2 p =>
      apply_transform E st (E.make_scale d0 d1 d2)
        (st.out ++ [Event.printf_scale d0 d1 d2] ++ knob_line p)
  | .rotate axis degrees p =>
      let theta := degrees * (E.M_PI / 180)
      apply_transform E st
        (if axis = 0 then E.make_rotX theta
         else if axis = 1 then E.make_rotY theta
         else E.make_rotZ theta)
        (st.out ++ [Event.printf_rotate axis degrees] ++ knob_line p)
  | .push => (push st.systems).map fun systems => { st with systems := systems }
  | .pop => (pop st.systems).map fun systems => { st with systems := systems }
  | .save p => some { st with out := st.out ++ [Event.save_extension p] }
  | .display => some { st with out := st.out ++ [Event.display] }
  | .frames _ => some st
  | .basename _ => some st
  | .vary _ _ _ _ _ => some st

/-- One iteration of the operation loop: the switch, then `printf("\n")`. -/
def step {M : Type} (E : MatrixLib M) (st : State M) (op : Op) : Option (State M) :=
  (exec_op E st op).map fun s => { s with out := s.out ++ [Event.printf "\n"] }

/-- The operation loop `for (i = 0; i < lastop; i++)`. -/
def run_ops {M : Type} (E : MatrixLib M) (st : State M) (ops : List Op) : Option (State M) :=
  ops.foldlM (step E) st

/-- The loop `while(knob)` over the linked list of a frame, from its head. -/
def apply_knobs {M : Type} (st : State M) (knob : List vary_node) : State M :=
  knob.foldl (fun s k => set_value s k.name k.value) st

/-- The body of the frame loop for frame `f`. -/
def frame {M : Type} (E : MatrixLib M) (g : Globals) (knobs : Knobs) (ops : List Op)
    (st : State M) (f : Nat) : Option (State M) :=
  (run_ops E (apply_knobs st (knobs f)) ops).bind fun s =>
    if 1 < g.num_frames then
      (pic_name g.name f).map fun file =>
        { systems := new_stack E
          tmp := []
          symtab := s.symtab
          out := s.out ++ [Event.save_frame file, Event.clear_screen,
            Event.clear_zbuffer] }
    else some s

/-- The frame loop `for(f = 0; f < num_frames; f++)`. -/
def frame_loop {M : Type} (E : MatrixLib M) (g : Globals) (knobs : Knobs) (ops : List Op)
    (st : State M) : Option (State M) :=
  (List.range g.num_frames.toNat).foldlM (frame E g knobs ops) st

/-- The ways in which a run of `my_main` ends: it returns, `exit` is called,
or its behaviour is undefined (an access outside the table of knobs, a failure
of the stack). -/
inductive Run (M : Type) where
  | done (st : State M)
  | exited (status : Nat) (st : State M)
  | fault

/-- The state of `my_main` when it calls `first_pass`. -/
def init_state {M : Type} (E : MatrixLib M) (symtab : String → Option CDouble) : State M :=
  { systems := new_stack E, tmp := [], symtab := symtab,
    out := [Event.clear_screen, Event.clear_zbuffer] }

/-- The function `my_main`, run with the globals `g`, the symbol table
`symtab` and the operations `ops`. -/
def my_main {M : Type} (E : MatrixLib M) (g : Globals) (symtab : String → Option CDouble)
    (ops : List Op) : Run M :=
  let st0 := init_state E symtab
  match first_pass g ops with
  | Except.error status => Run.exited status st0
  | Except.ok (g1, lines) =>
    match second_pass g1.num_frames ops with
    | none => Run.fault
    | some knobs =>
      let st1 : State M :=
        { st0 with out := st0.out ++ lines.map Event.printf ++ [Event.print_knobs] }
      match frame_loop E g1 knobs ops st1 with
      | none => Run.fault
      | some st2 =>
        Run.done
          (if 1 < g1.num_frames then
            { st2 with out := st2.out ++ [Event.make_animation g1.name] }
           else st2)

/-! ## A matrix library for examples -/

/-- Formal matrix expressions: the matrices that the builders return and
their formal products. -/
inductive MatExpr where
  | ident
  | translate (x y z : ℚ)
  | scale (x y z : ℚ)
  | rotX (theta : ℚ)
  | rotY (theta : ℚ)
  | rotZ (theta : ℚ)
  | mul (a b : MatExpr)
  deriving DecidableEq

/-- The matrix library of formal expressions, used to run `my_main` on
examples. -/
def exprLib : MatrixLib MatExpr :=
  { ident := MatExpr.ident
    mult := MatExpr.mul
    make_translate := MatExpr.translate
    make_scale := MatExpr.scale
    make_rotX := MatExpr.rotX
    make_rotY := MatExpr.rotY
    make_rotZ := MatExpr.rotZ
    M_PI := 355 / 113 }

/-- The globals before `first_pass` in the examples: the default frame count
and an empty name. -/
def globals0 : Globals := ⟨default_num_frames, ""⟩

/-- An empty symbol table. -/
def symtab0 : String → Option CDouble := fun _ => none

/-! ## Auxiliary definitions used in the statements -/

/-- The operations MOVE, SCALE, ROTATE, BOX, SPHERE, TORUS and LINE. -/
def Op.is_transform_or_draw : Op → Bool
  | .move _ _ _ _ => true
  | .scale _ _ _ _ => true
  | .rotate _ _ _ => true
  | .box _ _ _ _ _ _ => true
  | .sphere _ _ _ _ => true
  | .torus _ _ _ _ _ => true
  | .line _ _ _ _ _ _ => true
  | _ => false

/-- The two calls of the image sequence: the export of a frame and the call
of `make_animation`. -/
def Event.is_sequence_call {M : Type} : Event M → Bool
  | .save_frame _ => true
  | .make_animation _ => true
  | _ => false

/-- The stack and the scratch matrix at the start of a frame: a new stack and
an empty `tmp`; no call recorded. -/
def fresh_state {M : Type} (E : MatrixLib M) : State M :=
  { systems := new_stack E, tmp := [], symtab := fun _ => none, out := [] }

/-- The calls `set_value` made for the linked list of a frame, head first. -/
def knob_events {M : Type} (knob : List vary_node) : List (Event M) :=
  knob.map fun k => Event.set_value k.name k.value

/-- The state of `my_main` when it enters the frame loop, `lines` being the
lines printed by `first_pass`. -/
def start_state {M : Type} (E : MatrixLib M) (symtab : String → Option CDouble)
    (lines : List String) : State M :=
  { systems := new_stack E, tmp := [], symtab := symtab,
    out := [Event.clear_screen, Event.clear_zbuffer] ++ lines.map Event.printf
      ++ [Event.print_knobs] }

/-- The character of a decimal digit. -/
def digit_char (d : Nat) : Char := Char.ofNat (48 + d)

/-! ## Operation lists of the examples -/

/-- Scenario A of the spec: ten frames and a knob that varies from 0 to 90,
named by a MOVE. -/
def scenario_A : List Op :=
  [.frames 10, .basename "anim", .vary "k" 0 9 0 90, .move 1 0 0 (some "k")]

/-- Scenario B of the spec: a box and a SAVE, no FRAMES. -/
def scenario_B : List Op := [.box 0 0 0 1 1 1, .save "out.png"]

/-- Scenario C of the spec: a VARY and no FRAMES. -/
def scenario_C : List Op := [.box 0 0 0 1 1 1, .vary "k" 0 9 0 90]

/-- Two VARY operations for the same knob over the same frames. -/
def overlap_ops : List Op :=
  [.frames 10, .vary "k" 0 9 0 90, .vary "k" 0 9 100 200]

/-- An animation of three frames with a balanced PUSH and POP. -/
def scenario_frames3 : List Op :=
  [.frames 3, .basename "anim", .push, .box 0 0 0 1 1 1, .pop, .save "last.png"]

/-- The line that `first_pass` prints when it falls back on the default name. -/
def Event.is_basename_message {M : Type} : Event M → Bool
  | .printf s => s == "Basename used: basename\n"
  | _ => false

/-- The operations BOX, SPHERE, TORUS and LINE. -/
def Op.is_draw : Op → Bool
  | .box _ _ _ _ _ _ => true
  | .sphere _ _ _ _ => true
  | .torus _ _ _ _ _ => true
  | .line _ _ _ _ _ _ => true
  | _ => false

/-- A VARY whose start frame and end frame are both 3. -/
def degenerate_ops : List Op := [.frames 10, .vary "k" 3 3 5 7]

/-- An animation of three frames that changes the bottom of the stack and
leaves two PUSHes without a POP. -/
def unbalanced_ops : List Op :=
  [.frames 3, .move 1 2 3 none, .push, .scale 2 2 2 none, .push]

/-- An animation of three frames whose VARY runs up to frame 5, beyond the
last frame, with a balanced PUSH and POP. -/
def overrun_ops : List Op :=
  [.frames 3, .basename "anim", .vary "k" 0 5 0 90, .push, .box 0 0 0 1 1 1, .pop]

/-- A VARY whose start frame 2.5 is not an integer. -/
def fractional_ops : List Op := [.frames 10, .vary "k" (5 / 2) 5 0 90]

/-- A name of 116 characters. -/
def long_basename : String := String.mk (List.replicate 116 'a')

/-! ## The table built by second_pass -/

/-- Truncation leaves an integer unchanged. -/
theorem c_trunc_intCast (z : Int) : c_trunc (z : ℚ) = z := by
  unfold c_trunc
  split <;> simp

/-- The loop over `j` visits exactly the integers from the truncated start
frame up to the end frame. -/
theorem mem_frame_range (s e : ℚ) (j : Int) :
    j ∈ frame_range s e ↔ c_trunc s ≤ j ∧ (j : ℚ) ≤ e := by
  unfold frame_range
  simp only [List.mem_map, List.mem_range]
  constructor
  · rintro ⟨i, hi, rfl⟩
    refine ⟨by omega, ?_⟩
    have h1 : c_trunc s + (i : Int) ≤ ⌊e⌋ := by omega
    exact Int.le_floor.mp h1
  · rintro ⟨h1, h2⟩
    have h3 : j ≤ ⌊e⌋ := Int.le_floor.mpr h2
    refine ⟨(j - c_trunc s).toNat, by omega, by omega⟩

/-- The loop over `j` visits no frame twice. -/
theorem frame_range_nodup (s e : ℚ) : (frame_range s e).Nodup := by
  unfold frame_range
  refine (List.nodup_range _).map ?_
  intro a b h
  simpa using h

/-- Inserting one node per frame of a list of distinct frames inside the
table succeeds and puts the node in front of the list of each of these
frames. -/
theorem foldlM_knobs_insert (n : Int) (mk : Int → vary_node) (l : List Int) :
    ∀ kn : Knobs, l.Nodup → (∀ j ∈ l, 0 ≤ j ∧ j < table_slots n) →
      l.foldlM (fun kn j => knobs_insert n kn j (mk j)) kn
        = some (fun f => if ((f : Nat) : Int) ∈ l then mk f :: kn f else kn f) := by
  induction l with
  | nil => intro kn _ _; simp
  | cons j l ih =>
    intro kn hnd hb
    have hj := hb j (List.mem_cons_self _ _)
    have hnd2 := List.nodup_cons.mp hnd
    rw [List.foldlM_cons]
    simp only [knobs_insert, hj, and_self, if_true]
    simp only [Option.bind_eq_bind, Option.some_bind]
    have ih2 := ih (fun f => if f = j.toNat then mk j :: kn f else kn f) hnd2.2
      (fun x hx => hb x (List.mem_cons_of_mem _ hx))
    simp only [knobs_insert] at ih2
    rw [ih2]
    congr 1
    funext f
    by_cases hf : f = j.toNat
    · have hfj : ((f : Nat) : Int) = j := by omega
      subst hf
      simp [hfj, hnd2.1]
    · have hfj : ((f : Nat) : Int) ≠ j := by omega
      simp [hf, hfj]

/-- An operation whose accesses stay inside the table puts its node, if it has
one for the frame, in front of the list of the frame. -/
theorem second_pass_step_eq (n : Int) (kn : Knobs) (op : Op) (h : accesses_ok n op) :
    second_pass_step n kn op = some (fun f => (node_at f op).toList ++ kn f) := by
  cases op with
  | vary p s e v0 v1 =>
    simp only [second_pass_step]
    rw [foldlM_knobs_insert n (fun j => ⟨p, vary_value s e v0 v1 j⟩) _ kn
      (frame_range_nodup s e) h]
    congr 1
    funext f
    by_cases hf : (f : Int) ∈ frame_range s e <;> simp [node_at, hf]
  | _ => simp [second_pass_step, node_at]

/-- The loop of `second_pass`, from any table: the nodes of the operations, the
last operation first, in front of the lists of the table. -/
theorem foldlM_second_pass_step (n : Int) (ops : List Op) :
    ∀ kn : Knobs, (∀ op ∈ ops, accesses_ok n op) →
      ops.foldlM (second_pass_step n) kn
        = some (fun f => (ops.filterMap (node_at f)).reverse ++ kn f) := by
  induction ops with
  | nil => intro kn _; simp
  | cons op ops ih =>
    intro kn h
    rw [List.foldlM_cons, second_pass_step_eq n kn op (h op (List.mem_cons_self _ _))]
    simp only [Option.bind_eq_bind, Option.some_bind]
    rw [ih _ (fun x hx => h x (List.mem_cons_of_mem _ hx))]
    congr 1
    funext f
    cases hn : node_at f op <;> simp [List.filterMap_cons, hn]

/-- The table built by `second_pass` when every access stays inside it: the
list of frame `f` holds the nodes of the operations that reach `f`, the last
operation first. -/
theorem second_pass_eq (n : Int) (ops : List Op) (h : ∀ op ∈ ops, accesses_ok n op) :
    second_pass n ops = some (fun f => (ops.filterMap (node_at f)).reverse) := by
  unfold second_pass
  rw [foldlM_second_pass_step n ops _ h]
  simp

theorem c_trunc_ofNat (n : Nat) : c_trunc (n : ℚ) = n := by
  have := c_trunc_intCast (n : Int)
  simpa using this

/-- A frame of the table is a slot of the allocated block. -/
theorem lt_table_slots (n j : Int) (h0 : 0 ≤ j) (h : j < n) : j < table_slots n := by
  unfold table_slots sizeof_vary_node sizeof_pointer
  omega

theorem accesses_ok_vary_int (n : Int) (p : String) (s e : Int) (v0 v1 : ℚ)
    (hs : 0 ≤ s) (he : e < n) : accesses_ok n (.vary p s e v0 v1) := by
  intro j hj
  rw [mem_frame_range, c_trunc_intCast] at hj
  have : j ≤ e := by exact_mod_cast hj.2
  exact ⟨by omega, lt_table_slots n j (by omega) (by omega)⟩

theorem accesses_ok_scenario_A : ∀ op ∈ scenario_A, accesses_ok 10 op := by
  intro op hop
  simp only [scenario_A, List.mem_cons, List.mem_singleton, List.not_mem_nil, or_false] at hop
  rcases hop with rfl | rfl | rfl | rfl
  · trivial
  · trivial
  · exact accesses_ok_vary_int 10 "k" 0 9 0 90 (by norm_num) (by norm_num)
  · trivial

theorem second_pass_scenario_A :
    second_pass 10 scenario_A
      = some (fun f => (scenario_A.filterMap (node_at f)).reverse) :=
  second_pass_eq 10 scenario_A accesses_ok_scenario_A

theorem accesses_ok_overlap_ops : ∀ op ∈ overlap_ops, accesses_ok 10 op := by
  intro op hop
  simp only [overlap_ops, List.mem_cons, List.mem_singleton, List.not_mem_nil, or_false] at hop
  rcases hop with rfl | rfl | rfl
  · trivial
  · exact accesses_ok_vary_int 10 "k" 0 9 0 90 (by norm_num) (by norm_num)
  · exact accesses_ok_vary_int 10 "k" 0 9 100 200 (by norm_num) (by norm_num)

/-! ## The scan of first_pass -/

theorem foldl_vary_found (ops : List Op) :
    ∀ s : Scan, (ops.foldl first_pass_step s).vary_found = true ↔
      s.vary_found = true ∨ ∃ p a b c d, Op.vary p a b c d ∈ ops := by
  induction ops with
  | nil => intro s; simp
  | cons op ops ih =>
    intro s
    rw [List.foldl_cons, ih]
    cases op <;> simp [first_pass_step, or_assoc]
    exact Or.inr ⟨_, _, _, _, _, Or.inl ⟨rfl, rfl, rfl, rfl, rfl⟩⟩

theorem foldl_frames_found (ops : List Op) :
    ∀ s : Scan, (ops.foldl first_pass_step s).frames_found = true ↔
      s.frames_found = true ∨ ∃ n, Op.frames n ∈ ops := by
  induction ops with
  | nil => intro s; simp
  | cons op ops ih =>
    intro s
    rw [List.foldl_cons, ih]
    cases op <;> simp [first_pass_step, or_assoc]

theorem foldl_num_frames (ops : List Op) :
    ∀ s : Scan, (∀ n, Op.frames n ∉ ops) →
      (ops.foldl first_pass_step s).g.num_frames = s.g.num_frames := by
  induction ops with
  | nil => intro s _; rfl
  | cons op ops ih =>
    intro s h
    rw [List.foldl_cons, ih _ (fun n hn => h n (List.mem_cons_of_mem _ hn))]
    cases op <;> simp [first_pass_step]
    exact absurd (List.mem_cons_self _ _) (h _)

theorem first_pass_error_iff (g : Globals) (ops : List Op) :
    first_pass g ops = Except.error 1 ↔
      (∃ p s e v0 v1, Op.vary p s e v0 v1 ∈ ops) ∧ ¬ ∃ n, Op.frames n ∈ ops := by
  have hv := foldl_vary_found ops ⟨g, false, false, false⟩
  have hf := foldl_frames_found ops ⟨g, false, false, false⟩
  simp only [Bool.false_eq_true, false_or] at hv hf
  unfold first_pass
  simp only [first_pass_scan]
  rw [← hv, ← hf]
  split
  · rename_i h
    simp [h.1, h.2]
  · rename_i h
    split
    · rename_i h2
      simp [h2.1]
    · simp
      intro h3
      simpa [h3] using h

theorem first_pass_ok_of_frames_found (g : Globals) (ops : List Op)
    (h : (first_pass_scan g ops).frames_found = true) :
    ∃ r, first_pass g ops = Except.ok r ∧
      r.1.num_frames = (first_pass_scan g ops).g.num_frames := by
  unfold first_pass
  simp only [h]
  by_cases hn : (first_pass_scan g ops).name_found = false <;> simp [hn]

theorem first_pass_ok_of_no_frames_no_vary (g : Globals) (ops : List Op)
    (hf : ∀ n, Op.frames n ∉ ops) (hv : ∀ p s e v0 v1, Op.vary p s e v0 v1 ∉ ops) :
    first_pass g ops = Except.ok (⟨g.num_frames, (first_pass_scan g ops).g.name⟩, []) := by
  have h1 := foldl_vary_found ops ⟨g, false, false, false⟩
  have h2 := foldl_frames_found ops ⟨g, false, false, false⟩
  have h3 := foldl_num_frames ops ⟨g, false, false, false⟩ hf
  have hv2 : (first_pass_scan g ops).vary_found = false := by
    cases hc : (first_pass_scan g ops).vary_found
    · rfl
    · rw [first_pass_scan] at hc
      rcases h1.mp hc with h | ⟨p, a, b, c, d, h⟩
      · simp at h
      · exact absurd h (hv p a b c d)
  have hf2 : (first_pass_scan g ops).frames_found = false := by
    cases hc : (first_pass_scan g ops).frames_found
    · rfl
    · rw [first_pass_scan] at hc
      rcases h2.mp hc with h | ⟨n, h⟩
      · simp at h
      · exact absurd h (hf n)
  unfold first_pass
  simp only [hv2, hf2]
  simp
  rw [← h3]
  rfl

theorem node_at_eq_none_of_no_vary (ops : List Op)
    (hv : ∀ p s e v0 v1, Op.vary p s e v0 v1 ∉ ops) (f : Nat) :
    ops.filterMap (node_at f) = [] := by
  rw [List.filterMap_eq_nil_iff]
  intro op hop
  cases op <;> simp [node_at]
  exact absurd hop (hv _ _ _ _ _)

theorem second_pass_of_no_vary (n : Int) (ops : List Op)
    (hv : ∀ p s e v0 v1, Op.vary p s e v0 v1 ∉ ops) :
    second_pass n ops = some (fun _ => []) := by
  rw [second_pass_eq n ops]
  · congr 1
    funext f
    simp [node_at_eq_none_of_no_vary ops hv f]
  · intro op hop
    cases op <;> simp [accesses_ok]
    exact absurd hop (hv _ _ _ _ _)

/-! ## A run of one frame -/

theorem frame_loop_one {M : Type} (E : MatrixLib M) (g : Globals) (knobs : Knobs)
    (ops : List Op) (st : State M) (hg : g.num_frames = 1) :
    frame_loop E g knobs ops st = run_ops E (apply_knobs st (knobs 0)) ops := by
  unfold frame_loop
  rw [hg]
  have h1 : (1 : Int).toNat = 1 := rfl
  have h2 : List.range 1 = [0] := rfl
  rw [h1, h2, List.foldlM_cons]
  simp only [List.foldlM_nil, frame, hg, lt_irrefl, if_false]
  cases run_ops E (apply_knobs st (knobs 0)) ops <;> rfl

theorem my_main_single_frame {M : Type} (E : MatrixLib M) (g : Globals)
    (symtab : String → Option CDouble) (ops : List Op)
    (hf : ∀ n, Op.frames n ∉ ops) (hv : ∀ p s e v0 v1, Op.vary p s e v0 v1 ∉ ops)
    (hg : g.num_frames = 1) :
    my_main E g symtab ops =
      match run_ops E { init_state E symtab with
          out := [Event.clear_screen, Event.clear_zbuffer, Event.print_knobs] } ops with
      | some st => Run.done st
      | none => Run.fault := by
  unfold my_main
  rw [first_pass_ok_of_no_frames_no_vary g ops hf hv]
  simp only [second_pass_of_no_vary _ ops hv]
  rw [frame_loop_one E ⟨g.num_frames, (first_pass_scan g ops).g.name⟩ _ ops _ hg]
  simp only [apply_knobs, List.foldl_nil, init_state, List.map_nil, List.append_nil,
    List.cons_append, List.nil_append, hg, lt_irrefl, if_false]
  cases run_ops E _ ops <;> rfl

/-! ## The stack during the operation loop -/

/-- A case of the switch other than PUSH and POP succeeds on a stack that is
not empty and changes at most its top. -/
theorem step_keeps_tail {M : Type} (E : MatrixLib M) (st : State M) (op : Op) (x : M)
    (tl : List M) (hs : st.systems = x :: tl) (h1 : op ≠ Op.push) (h2 : op ≠ Op.pop) :
    ∃ st' x', step E st op = some st' ∧ st'.systems = x' :: tl := by
  cases op <;>
    simp [step, exec_op, draw_solid, apply_transform, peek, set_top, hs] at h1 h2 ⊢

theorem step_push {M : Type} (E : MatrixLib M) (st : State M) (x : M) (tl : List M)
    (hs : st.systems = x :: tl) :
    ∃ st', step E st Op.push = some st' ∧ st'.systems = x :: x :: tl := by
  simp [step, exec_op, push, hs]

theorem step_pop {M : Type} (E : MatrixLib M) (st : State M) (x y : M) (tl : List M)
    (hs : st.systems = x :: y :: tl) :
    ∃ st', step E st Op.pop = some st' ∧ st'.systems = y :: tl := by
  simp [step, exec_op, pop, hs]

theorem run_ops_cons {M : Type} (E : MatrixLib M) (st : State M) (op : Op) (ops : List Op) :
    run_ops E st (op :: ops) = (step E st op).bind (fun s => run_ops E s ops) := by
  simp [run_ops, List.foldlM_cons]

theorem run_ops_append {M : Type} (E : MatrixLib M) (st : State M) (l1 l2 : List Op) :
    run_ops E st (l1 ++ l2) = (run_ops E st l1).bind (fun s => run_ops E s l2) := by
  simp [run_ops, List.foldlM_append]

theorem run_ops_keeps_tail {M : Type} (E : MatrixLib M) (T : List Op) :
    ∀ (st : State M) (x : M) (tl : List M), st.systems = x :: tl →
      (∀ op ∈ T, op ≠ Op.push ∧ op ≠ Op.pop) →
      ∃ st' x', run_ops E st T = some st' ∧ st'.systems = x' :: tl := by
  induction T with
  | nil => intro st x tl hs _; exact ⟨st, x, by simp [run_ops], hs⟩
  | cons op T ih =>
    intro st x tl hs h
    have hop := h op (List.mem_cons_self _ _)
    obtain ⟨st1, x1, e1, hs1⟩ := step_keeps_tail E st op x tl hs hop.1 hop.2
    obtain ⟨st2, x2, e2, hs2⟩ := ih st1 x1 tl hs1 (fun o ho => h o (List.mem_cons_of_mem _ ho))
    exact ⟨st2, x2, by rw [run_ops_cons, e1]; simpa using e2, hs2⟩

theorem ne_push_pop_of_transform_or_draw (op : Op) (h : op.is_transform_or_draw = true) :
    op ≠ Op.push ∧ op ≠ Op.pop := by
  cases op <;> simp [Op.is_transform_or_draw] at h ⊢

/-- The depth of the stack after a sequence in which the depth never falls
below 1. -/
theorem run_ops_depth {M : Type} (E : MatrixLib M) (ops : List Op) :
    ∀ st : State M,
      (∀ k, 1 ≤ (st.systems.length : Int) + ((ops.take k).count Op.push : Int)
          - ((ops.take k).count Op.pop : Int)) →
      ∃ st', run_ops E st ops = some st' ∧
        (st'.systems.length : Int)
          = (st.systems.length : Int) + (ops.count Op.push : Int) - (ops.count Op.pop : Int) := by
  induction ops with
  | nil => intro st _; exact ⟨st, by simp [run_ops], by simp⟩
  | cons op ops ih =>
    intro st h
    have h0 := h 0
    have h1 := h 1
    simp only [List.take_zero, List.count_nil, Nat.cast_zero, add_zero, sub_zero] at h0
    simp only [List.take_succ_cons, List.take_zero, List.count_cons, List.count_nil,
      zero_add] at h1
    obtain ⟨x, tl, hs⟩ : ∃ x tl, st.systems = x :: tl := by
      cases hs : st.systems with
      | nil => simp [hs] at h0
      | cons x tl => exact ⟨x, tl, rfl⟩
    have key : ∃ s1, step E st op = some s1 ∧
        (s1.systems.length : Int) = (st.systems.length : Int)
          + (([op].count Op.push : Nat) : Int) - (([op].count Op.pop : Nat) : Int) := by
      by_cases hpush : op = Op.push
      · subst hpush
        obtain ⟨s1, e1, hs1⟩ := step_push E st x tl hs
        refine ⟨s1, e1, ?_⟩
        simp [hs1, hs]
      · by_cases hpop : op = Op.pop
        · subst hpop
          cases tl with
          | nil => simp [hs] at h1
          | cons y tl =>
            obtain ⟨s1, e1, hs1⟩ := step_pop E st x y tl hs
            refine ⟨s1, e1, ?_⟩
            simp [hs1, hs]
        · obtain ⟨s1, x1, e1, hs1⟩ := step_keeps_tail E st op x tl hs hpush hpop
          refine ⟨s1, e1, ?_⟩
          have c1 : [op].count Op.push = 0 := by
            simp [List.count_cons, Ne.symm hpush]
          have c2 : [op].count Op.pop = 0 := by
            simp [List.count_cons, Ne.symm hpop]
          simp [hs1, hs, c1, c2]
    obtain ⟨s1, e1, hd1⟩ := key
    have hk : ∀ k, 1 ≤ (s1.systems.length : Int) + ((ops.take k).count Op.push : Int)
          - ((ops.take k).count Op.pop : Int) := by
      intro k
      have := h (k + 1)
      simp only [List.take_succ_cons, List.count_cons] at this
      simp only [List.count_cons, List.count_nil, zero_add] at hd1
      rw [hd1]
      push_cast at this ⊢
      omega
    obtain ⟨s2, e2, hd2⟩ := ih s1 hk
    refine ⟨s2, by rw [run_ops_cons, e1]; simpa using e2, ?_⟩
    rw [hd2, hd1]
    simp only [List.count_cons, List.count_nil, zero_add]
    push_cast
    omega

/-! ## The calls made by the operation loop -/

/-- One iteration of the operation loop neither reads the symbol table nor the
calls made so far: it appends its own calls. -/
theorem step_rebase {M : Type} (E : MatrixLib M) (st : State M)
    (symtab : String → Option CDouble) (pre : List (Event M)) (op : Op) :
    step E ⟨st.systems, st.tmp, symtab, pre ++ st.out⟩ op
      = (step E st op).map (fun s => ⟨s.systems, s.tmp, symtab, pre ++ s.out⟩) := by
  obtain ⟨systems, tmp, σ, out⟩ := st
  rcases systems with _ | ⟨x, _ | ⟨y, tl⟩⟩ <;> cases op <;>
    simp [step, exec_op, draw_solid, apply_transform, peek, set_top, push, pop]

theorem run_ops_rebase {M : Type} (E : MatrixLib M) (symtab : String → Option CDouble)
    (pre : List (Event M)) (ops : List Op) :
    ∀ st : State M, run_ops E ⟨st.systems, st.tmp, symtab, pre ++ st.out⟩ ops
      = (run_ops E st ops).map (fun s => ⟨s.systems, s.tmp, symtab, pre ++ s.out⟩) := by
  induction ops with
  | nil => intro st; simp [run_ops]
  | cons op ops ih =>
    intro st
    rw [run_ops_cons, run_ops_cons, step_rebase]
    cases h : step E st op with
    | none => simp
    | some s => simp [ih s]

theorem knob_line_filter {M : Type} (p : Option String) :
    (knob_line p : List (Event M)).filter Event.is_sequence_call = [] := by
  cases p <;> simp [knob_line, Event.is_sequence_call]

/-- One iteration of the operation loop makes no call of the image sequence. -/
theorem step_filter {M : Type} (E : MatrixLib M) (st st' : State M) (op : Op)
    (h : step E st op = some st') :
    st'.out.filter Event.is_sequence_call = st.out.filter Event.is_sequence_call := by
  obtain ⟨systems, tmp, σ, out⟩ := st
  rcases systems with _ | ⟨x, _ | ⟨y, tl⟩⟩ <;> cases op <;>
    simp [step, exec_op, draw_solid, apply_transform, peek, set_top, push, pop] at h <;>
    subst h <;>
    simp [List.filter_append, List.filter_cons, Event.is_sequence_call, knob_line_filter]

theorem run_ops_filter {M : Type} (E : MatrixLib M) (ops : List Op) :
    ∀ st st' : State M, run_ops E st ops = some st' →
      st'.out.filter Event.is_sequence_call = st.out.filter Event.is_sequence_call := by
  induction ops with
  | nil => intro st st' h; simp [run_ops] at h; rw [h]
  | cons op ops ih =>
    intro st st' h
    rw [run_ops_cons] at h
    cases h1 : step E st op with
    | none => simp [h1] at h
    | some s =>
      rw [h1, Option.some_bind] at h
      rw [ih s st' h, step_filter E st s op h1]

theorem apply_knobs_eq {M : Type} (knob : List vary_node) :
    ∀ st : State M, ∃ symtab, apply_knobs st knob
      = ⟨st.systems, st.tmp, symtab, st.out ++ knob_events knob⟩ := by
  induction knob with
  | nil => intro st; exact ⟨st.symtab, by simp [apply_knobs, knob_events]⟩
  | cons k knob ih =>
    intro st
    obtain ⟨symtab, h⟩ := ih (set_value st k.name k.value)
    refine ⟨symtab, ?_⟩
    simp only [apply_knobs, List.foldl_cons] at h ⊢
    rw [h]
    simp [set_value, knob_events]

/-! ## The frame loop -/

/-- A call of `sprintf` that fits the buffers produces the characters of the
format. -/
theorem pic_name_eq_some (name : String) (f : Nat) (file : String)
    (h : pic_name name f = some file) : file = pic_name_text name f := by
  unfold pic_name at h
  split at h
  · injection h with h
    exact h.symm
  · cases h

/-- A call of `sprintf` either fails or produces the characters of the
format. -/
theorem pic_name_cases (name : String) (f : Nat) :
    pic_name name f = none ∨ pic_name name f = some (pic_name_text name f) := by
  unfold pic_name
  split
  · exact Or.inr rfl
  · exact Or.inl rfl

/-- The body of the frame loop, entered with a new stack and an empty `tmp`:
the knobs of the frame are written, then the calls of one pass of the
operation loop are made, then (when animating) the frame is exported. -/
theorem frame_eq {M : Type} (E : MatrixLib M) (g : Globals) (knobs : Knobs) (ops : List Op)
    (st : State M) (f : Nat) (hs : st.systems = new_stack E) (ht : st.tmp = []) :
    ∃ symtab, frame E g knobs ops st f
      = (run_ops E (fresh_state E) ops).bind fun s =>
          if 1 < g.num_frames then
            (pic_name g.name f).map fun file =>
              ⟨new_stack E, [], symtab,
                st.out ++ knob_events (knobs f) ++ s.out ++
                  [Event.save_frame file, Event.clear_screen, Event.clear_zbuffer]⟩
          else some ⟨s.systems, s.tmp, symtab, st.out ++ knob_events (knobs f) ++ s.out⟩ := by
  obtain ⟨symtab, h⟩ := apply_knobs_eq (knobs f) st
  refine ⟨symtab, ?_⟩
  unfold frame
  rw [h, hs, ht]
  have := run_ops_rebase E symtab (st.out ++ knob_events (knobs f)) ops (fresh_state E)
  simp only [fresh_state, List.append_nil] at this
  rw [this]
  simp only [fresh_state]
  cases run_ops E _ ops with
  | none => rfl
  | some s =>
    simp only [Option.map_some', Option.some_bind, Option.bind_eq_bind]

/-- The first `k` iterations of the frame loop of an animation whose file
names fit the buffer. -/
theorem frame_loop_many {M : Type} (E : MatrixLib M) (g : Globals) (knobs : Knobs)
    (ops : List Op) (h1 : 1 < g.num_frames) (s0 : State M)
    (hrun : run_ops E (fresh_state E) ops = some s0) :
    ∀ (k : Nat) (st : State M), st.systems = new_stack E → st.tmp = [] →
      (∀ f, f < k → pic_name g.name f = some (pic_name_text g.name f)) →
      ∃ symtab, (List.range k).foldlM (frame E g knobs ops) st
        = some ⟨new_stack E, [], symtab,
            st.out ++ (List.range k).flatMap (fun f => knob_events (knobs f) ++ s0.out ++
              [Event.save_frame (pic_name_text g.name f), Event.clear_screen,
                Event.clear_zbuffer])⟩ := by
  intro k
  induction k with
  | zero =>
    intro st hs ht _
    obtain ⟨systems, tmp, σ, out⟩ := st
    simp only at hs ht
    subst hs ht
    exact ⟨σ, by simp⟩
  | succ k ih =>
    intro st hs ht hfit
    obtain ⟨σ1, e1⟩ := ih st hs ht (fun f hf => hfit f (Nat.lt_succ_of_lt hf))
    obtain ⟨σ2, e2⟩ := frame_eq E g knobs ops
      ⟨new_stack E, [], σ1, st.out ++ (List.range k).flatMap (fun f => knob_events (knobs f) ++
        s0.out ++ [Event.save_frame (pic_name_text g.name f), Event.clear_screen,
          Event.clear_zbuffer])⟩ k rfl rfl
    refine ⟨σ2, ?_⟩
    rw [List.range_succ, List.foldlM_append, e1]
    simp only [Option.bind_eq_bind, Option.some_bind, List.foldlM_cons, List.foldlM_nil]
    rw [e2, hrun, hfit k (Nat.lt_succ_self k)]
    simp [h1, List.flatMap_append]

theorem frame_loop_none {M : Type} (E : MatrixLib M) (g : Globals) (knobs : Knobs)
    (ops : List Op) (st : State M) (hs : st.systems = new_stack E) (ht : st.tmp = [])
    (hpos : 0 < g.num_frames) (hrun : run_ops E (fresh_state E) ops = none) :
    frame_loop E g knobs ops st = none := by
  unfold frame_loop
  obtain ⟨k, hk⟩ : ∃ k, g.num_frames.toNat = k + 1 := ⟨g.num_frames.toNat - 1, by omega⟩
  rw [hk, List.range_succ_eq_map, List.foldlM_cons]
  obtain ⟨σ, e⟩ := frame_eq E g knobs ops st 0 hs ht
  rw [e, hrun]
  rfl

theorem filter_frames {M : Type} (A : Nat → List (Event M)) (B : List (Event M))
    (name : String) (hA : ∀ f, (A f).filter Event.is_sequence_call = [])
    (hB : B.filter Event.is_sequence_call = []) (l : List Nat) :
    (l.flatMap (fun f => A f ++ B ++
        [Event.save_frame (pic_name_text name f), Event.clear_screen, Event.clear_zbuffer])).filter
        Event.is_sequence_call
      = l.map (fun f => Event.save_frame (pic_name_text name f)) := by
  induction l with
  | nil => simp
  | cons f l ih =>
    simp only [List.flatMap_cons, List.filter_append, ih, hA, hB, List.map_cons]
    simp [Event.is_sequence_call]

theorem knob_events_filter {M : Type} (knob : List vary_node) :
    (knob_events knob : List (Event M)).filter Event.is_sequence_call = [] := by
  induction knob with
  | nil => rfl
  | cons k knob ih =>
    simp only [knob_events, List.map_cons] at ih ⊢
    simp [List.filter_cons, Event.is_sequence_call, ih]

theorem printf_lines_filter {M : Type} (lines : List String) :
    (lines.map Event.printf : List (Event M)).filter Event.is_sequence_call = [] := by
  induction lines with
  | nil => rfl
  | cons k lines ih => simp [List.filter_cons, Event.is_sequence_call, ih]

theorem run_ops_fresh_filter {M : Type} (E : MatrixLib M) (ops : List Op) (s0 : State M)
    (h : run_ops E (fresh_state E) ops = some s0) :
    s0.out.filter Event.is_sequence_call = [] := by
  rw [run_ops_filter E ops _ _ h]
  rfl

/-! ## The shape of a run of my_main -/

theorem my_main_eq {M : Type} (E : MatrixLib M) (g g1 : Globals)
    (symtab : String → Option CDouble) (ops : List Op) (lines : List String) (knobs : Knobs)
    (h1 : first_pass g ops = Except.ok (g1, lines))
    (h2 : second_pass g1.num_frames ops = some knobs) :
    my_main E g symtab ops =
      match frame_loop E g1 knobs ops (start_state E symtab lines) with
      | none => Run.fault
      | some st2 =>
        Run.done (if 1 < g1.num_frames then
          { st2 with out := st2.out ++ [Event.make_animation g1.name] } else st2) := by
  unfold my_main
  rw [h1]
  simp only [h2]
  rfl

theorem my_main_done {M : Type} (E : MatrixLib M) (g : Globals)
    (symtab : String → Option CDouble) (ops : List Op) (st : State M)
    (h : my_main E g symtab ops = Run.done st) :
    ∃ g1 lines knobs st2, first_pass g ops = Except.ok (g1, lines) ∧
      second_pass g1.num_frames ops = some knobs ∧
      frame_loop E g1 knobs ops (start_state E symtab lines) = some st2 ∧
      st = (if 1 < g1.num_frames then
          { st2 with out := st2.out ++ [Event.make_animation g1.name] } else st2) := by
  cases h1 : first_pass g ops with
  | error s => simp [my_main, h1] at h
  | ok r =>
    obtain ⟨g1, lines⟩ := r
    cases h2 : second_pass g1.num_frames ops with
    | none => simp [my_main, h1, h2] at h
    | some knobs =>
      rw [my_main_eq E g g1 symtab ops lines knobs h1 h2] at h
      cases h3 : frame_loop E g1 knobs ops (start_state E symtab lines) with
      | none => simp [h3] at h
      | some st2 =>
        rw [h3] at h
        injection h with h
        exact ⟨g1, lines, knobs, st2, rfl, h2, h3, h.symm⟩

theorem run_ops_fresh_of_well_formed {M : Type} (E : MatrixLib M) (ops : List Op)
    (hwf : ∀ k, (ops.take k).count Op.pop ≤ (ops.take k).count Op.push) :
    ∃ s0, run_ops E (fresh_state E) ops = some s0 := by
  obtain ⟨s0, e, _⟩ := run_ops_depth E ops (fresh_state E) (by
    intro k
    have := hwf k
    simp only [fresh_state, new_stack, List.length_singleton]
    push_cast
    omega)
  exact ⟨s0, e⟩

theorem frame_loop_some {M : Type} (E : MatrixLib M) (g : Globals) (knobs : Knobs)
    (ops : List Op) (st : State M) (hs : st.systems = new_stack E) (ht : st.tmp = [])
    (s0 : State M) (hrun : run_ops E (fresh_state E) ops = some s0)
    (hfit : 1 < g.num_frames → ∀ f, f < g.num_frames.toNat →
      pic_name g.name f = some (pic_name_text g.name f)) :
    ∃ st2, frame_loop E g knobs ops st = some st2 := by
  by_cases h1 : 1 < g.num_frames
  · obtain ⟨σ, e⟩ := frame_loop_many E g knobs ops h1 s0 hrun g.num_frames.toNat st hs ht
      (hfit h1)
    exact ⟨_, e⟩
  · by_cases h2 : g.num_frames = 1
    · rw [frame_loop_one E g knobs ops st h2]
      obtain ⟨σ, e⟩ := apply_knobs_eq (knobs 0) st
      have := run_ops_rebase E σ (st.out ++ knob_events (knobs 0)) ops (fresh_state E)
      simp only [fresh_state, List.append_nil] at this hrun
      rw [e, hs, ht, this, hrun]
      exact ⟨_, rfl⟩
    · have h3 : g.num_frames.toNat = 0 := by omega
      exact ⟨st, by simp [frame_loop, h3]⟩

theorem first_pass_scenario_frames3 :
    first_pass globals0 scenario_frames3 = Except.ok (⟨3, "anim"⟩, []) := by
  rfl

theorem pic_name_anim_examples :
    pic_name_text "anim" 0 = "anim/anim000.png" ∧ pic_name_text "anim" 1 = "anim/anim001.png" ∧
      pic_name_text "anim" 2 = "anim/anim002.png" := by
  simp [pic_name_text, fmt_03d]

/-! ## File names of the frames -/

/-- The decimal digits of a number below 1000, units first. -/
theorem digits_lt_1000 (f : Nat) (h : f < 1000) :
    (Nat.digits 10 f = [] ∧ f = 0) ∨ (Nat.digits 10 f = [f] ∧ 0 < f ∧ f < 10) ∨
    (Nat.digits 10 f = [f % 10, f / 10] ∧ 10 ≤ f ∧ f < 100) ∨
    (Nat.digits 10 f = [f % 10, f / 10 % 10, f / 100] ∧ 100 ≤ f) := by
  by_cases h0 : f = 0
  · left; subst h0; simp
  by_cases h1 : f < 10
  · right; left
    exact ⟨Nat.digits_of_lt 10 f h0 h1, by omega, h1⟩
  by_cases h2 : f < 100
  · right; right; left
    refine ⟨?_, by omega, h2⟩
    rw [Nat.digits_def' (by norm_num) (by omega)]
    rw [Nat.digits_of_lt 10 (f / 10) (by omega) (by omega)]
  · right; right; right
    refine ⟨?_, by omega⟩
    rw [Nat.digits_def' (by norm_num) (by omega)]
    rw [Nat.digits_def' (by norm_num) (by omega)]
    rw [Nat.digits_of_lt 10 (f / 10 / 10) (by omega) (by omega)]
    have : f / 10 / 10 = f / 100 := by omega
    rw [this]

/-- The conversion `%03d` of a number below 1000: hundreds, tens, units. -/
theorem fmt_03d_eq (f : Nat) (h : f < 1000) :
    fmt_03d f = String.mk [digit_char (f / 100), digit_char (f / 10 % 10), digit_char (f % 10)] := by
  unfold fmt_03d
  rcases digits_lt_1000 f h with ⟨e, h1⟩ | ⟨e, h1, h2⟩ | ⟨e, h1, h2⟩ | ⟨e, h1⟩
  · subst h1
    simp [digit_char, List.replicate]
  · have a1 : f / 100 = 0 := by omega
    have a2 : f / 10 % 10 = 0 := by omega
    have a3 : f % 10 = f := by omega
    simp [e, a1, a2, a3, digit_char, List.replicate]
  · have a1 : f / 100 = 0 := by omega
    have a2 : f / 10 % 10 = f / 10 := by omega
    simp [e, a1, a2, digit_char, List.replicate]
  · simp [e, digit_char]

theorem digit_char_lt : ∀ a < 10, ∀ b < 10, (digit_char a < digit_char b ↔ a < b) := by
  decide

theorem list_lt_append_left (p : List Char) {a b : List Char} (h : a < b) : p ++ a < p ++ b :=
  List.Lex.append_left _ h p

theorem digits3_lt (f g : Nat) (hfg : f < g) (hg : g < 1000) (s : List Char) :
    [digit_char (f / 100), digit_char (f / 10 % 10), digit_char (f % 10)] ++ s
      < [digit_char (g / 100), digit_char (g / 10 % 10), digit_char (g % 10)] ++ s := by
  have d1 := digit_char_lt (f / 100) (by omega) (g / 100) (by omega)
  have d2 := digit_char_lt (f / 10 % 10) (by omega) (g / 10 % 10) (by omega)
  have d3 := digit_char_lt (f % 10) (by omega) (g % 10) (by omega)
  by_cases c1 : f / 100 < g / 100
  · exact List.Lex.rel (d1.mpr c1)
  · have e1 : f / 100 = g / 100 := by omega
    rw [e1]
    refine List.Lex.cons ?_
    by_cases c2 : f / 10 % 10 < g / 10 % 10
    · exact List.Lex.rel (d2.mpr c2)
    · have e2 : f / 10 % 10 = g / 10 % 10 := by omega
      rw [e2]
      refine List.Lex.cons ?_
      exact List.Lex.rel (d3.mpr (by omega))

/-! ## Further lemmas on the passes -/

/-- The scan has seen a BASENAME exactly when the list holds one. -/
theorem foldl_name_found (ops : List Op) :
    ∀ s : Scan, (ops.foldl first_pass_step s).name_found = true ↔
      s.name_found = true ∨ ∃ nm, Op.basename nm ∈ ops := by
  induction ops with
  | nil => intro s; simp
  | cons op ops ih =>
    intro s
    rw [List.foldl_cons, ih]
    cases op <;> simp [first_pass_step, or_assoc]

/-- A scan over a list without BASENAME leaves `name` as it was. -/
theorem foldl_name (ops : List Op) :
    ∀ s : Scan, (∀ nm, Op.basename nm ∉ ops) →
      (ops.foldl first_pass_step s).g.name = s.g.name := by
  induction ops with
  | nil => intro s _; rfl
  | cons op ops ih =>
    intro s h
    rw [List.foldl_cons, ih _ (fun n hn => h n (List.mem_cons_of_mem _ hn))]
    cases op <;> simp [first_pass_step]
    exact absurd (List.mem_cons_self _ _) (h _)

/-- A source shorter than the buffer is copied whole. -/
theorem strncpy_of_length_lt (src : String) (n : Nat) (h : src.length < n) :
    strncpy src n = src := by
  obtain ⟨data⟩ := src
  have h2 : data.length ≤ n := Nat.le_of_lt h
  simp only [strncpy, List.take_of_length_le h2]

/-- The default name fits the buffer. -/
theorem strncpy_basename : strncpy "basename" 128 = "basename" := by
  decide

/-- The three ways in which `first_pass` ends. -/
theorem first_pass_cases (g : Globals) (ops : List Op) :
    first_pass g ops = Except.error 1 ∨
    ((first_pass_scan g ops).frames_found = true ∧ (first_pass_scan g ops).name_found = false ∧
      first_pass g ops = Except.ok
        (⟨(first_pass_scan g ops).g.num_frames, "basename"⟩, ["Basename used: basename\n"])) ∨
    (¬ ((first_pass_scan g ops).frames_found = true ∧
        (first_pass_scan g ops).name_found = false) ∧
      first_pass g ops = Except.ok ((first_pass_scan g ops).g, [])) := by
  unfold first_pass
  simp only
  split
  · left; rfl
  · split
    · rename_i h
      right; left
      exact ⟨h.1, h.2, by rw [strncpy_basename]⟩
    · rename_i h
      right; right
      exact ⟨h, rfl⟩

/-- After the loop of `first_pass`, `name` is the copy of the operand of the last
BASENAME. -/
theorem first_pass_scan_basename (g : Globals) (pre post : List Op) (nm : String)
    (hpost : ∀ m, Op.basename m ∉ post) :
    (first_pass_scan g (pre ++ Op.basename nm :: post)).g.name = strncpy nm 128 ∧
    (first_pass_scan g (pre ++ Op.basename nm :: post)).name_found = true := by
  constructor
  · rw [first_pass_scan, List.foldl_append, List.foldl_cons, foldl_name post _ hpost]
    rfl
  · rw [first_pass_scan, foldl_name_found]
    right
    exact ⟨nm, by simp⟩

theorem accesses_ok_degenerate_ops : ∀ op ∈ degenerate_ops, accesses_ok 10 op := by
  intro op hop
  simp only [degenerate_ops, List.mem_cons, List.mem_singleton, List.not_mem_nil, or_false] at hop
  rcases hop with rfl | rfl
  · trivial
  · exact accesses_ok_vary_int 10 "k" 3 3 5 7 (by norm_num) (by norm_num)

/-- An iteration of the frame loop of an animation ends with a new stack and an
empty `tmp`. -/
theorem frame_resets {M : Type} (E : MatrixLib M) (g : Globals) (knobs : Knobs)
    (ops : List Op) (st st' : State M) (f : Nat) (h1 : 1 < g.num_frames)
    (h : frame E g knobs ops st f = some st') :
    st'.systems = new_stack E ∧ st'.tmp = [] := by
  unfold frame at h
  cases hr : run_ops E (apply_knobs st (knobs f)) ops with
  | none => rw [hr] at h; cases h
  | some s =>
    rw [hr] at h
    simp only [Option.bind_eq_bind, Option.some_bind, h1, if_true] at h
    cases hp : pic_name g.name f with
    | none => rw [hp] at h; cases h
    | some file =>
      rw [hp] at h
      simp only [Option.map_some'] at h
      injection h with h
      subst h
      exact ⟨rfl, rfl⟩

/-- Every iteration of the frame loop of an animation starts with a new stack
and an empty `tmp`. -/
theorem frames_start_fresh {M : Type} (E : MatrixLib M) (g : Globals) (knobs : Knobs)
    (ops : List Op) (st : State M) (h1 : 1 < g.num_frames) (hs : st.systems = new_stack E)
    (ht : st.tmp = []) :
    ∀ (f : Nat) (st_f : State M), (List.range f).foldlM (frame E g knobs ops) st = some st_f →
      st_f.systems = new_stack E ∧ st_f.tmp = [] := by
  intro f
  cases f with
  | zero =>
    intro st_f h
    simp at h
    subst h
    exact ⟨hs, ht⟩
  | succ f =>
    intro st_f h
    rw [List.range_succ, List.foldlM_append] at h
    cases hp : (List.range f).foldlM (frame E g knobs ops) st with
    | none => rw [hp] at h; cases h
    | some s =>
      rw [hp] at h
      simp only [Option.bind_eq_bind, Option.some_bind, List.foldlM_cons, List.foldlM_nil] at h
      cases hq : frame E g knobs ops s f with
      | none => rw [hq] at h; cases h
      | some s2 =>
        rw [hq] at h
        simp at h
        subst h
        exact frame_resets E g knobs ops s _ f h1 hq

/-! ## The buffers of the file name and the start of a VARY -/

/-- The conversion `%03d` produces at least 3 characters. -/
theorem fmt_03d_length (f : Nat) : 3 ≤ (fmt_03d f).length := by
  unfold fmt_03d
  simp only [String.length, List.length_append, List.length_replicate, List.length_map,
    List.length_reverse]
  omega

/-- The number of characters that the format produces. -/
theorem pic_name_text_length (name : String) (f : Nat) :
    (pic_name_text name f).length = name.length + (fmt_03d f).length + 9 := by
  unfold pic_name_text
  simp only [String.length_append]
  have h1 : "anim/".length = 5 := by decide
  have h2 : ".png".length = 4 := by decide
  rw [h1, h2]
  omega

/-- The conversion `%03d` of a number below 1000 produces 3 characters. -/
theorem fmt_03d_length_lt (f : Nat) (h : f < 1000) : (fmt_03d f).length = 3 := by
  rw [fmt_03d_eq f h]
  rfl

/-- A name of at most 115 characters and a frame below 1000 fit the buffer. -/
theorem pic_name_of_short (name : String) (f : Nat) (hf : f < 1000)
    (hn : name.length ≤ 115) : pic_name name f = some (pic_name_text name f) := by
  unfold pic_name
  rw [if_pos]
  rw [pic_name_text_length, fmt_03d_length_lt f hf]
  omega

/-- A name of more than 115 characters does not fit the buffer. -/
theorem pic_name_of_long (name : String) (f : Nat) (hn : 115 < name.length) :
    pic_name name f = none := by
  unfold pic_name
  rw [if_neg]
  rw [pic_name_text_length]
  have := fmt_03d_length f
  omega

/-- If the first `k` iterations of the frame loop of an animation ran, the
file names of their frames fit the buffer. -/
theorem frame_loop_fits {M : Type} (E : MatrixLib M) (g : Globals) (knobs : Knobs)
    (ops : List Op) (st : State M) (h1 : 1 < g.num_frames) (hs : st.systems = new_stack E)
    (ht : st.tmp = []) :
    ∀ (k : Nat) (st' : State M), (List.range k).foldlM (frame E g knobs ops) st = some st' →
      ∀ f, f < k → pic_name g.name f = some (pic_name_text g.name f) := by
  intro k
  induction k with
  | zero => intro st' _ f hf; omega
  | succ k ih =>
    intro st' h f hf
    rw [List.range_succ, List.foldlM_append] at h
    cases hp : (List.range k).foldlM (frame E g knobs ops) st with
    | none => rw [hp] at h; cases h
    | some s =>
      by_cases hfk : f < k
      · exact ih s hp f hfk
      · have hfe : f = k := by omega
        subst hfe
        rw [hp] at h
        simp only [Option.bind_eq_bind, Option.some_bind, List.foldlM_cons, List.foldlM_nil] at h
        obtain ⟨hsys, htmp⟩ := frames_start_fresh E g knobs ops st h1 hs ht f s hp
        obtain ⟨σ, e⟩ := frame_eq E g knobs ops s f hsys htmp
        rcases pic_name_cases g.name f with hn | hn
        · rw [e, hn] at h
          cases hr : run_ops E (fresh_state E) ops with
          | none => rw [hr] at h; simp at h
          | some s0 => rw [hr] at h; simp [h1] at h
        · exact hn

/-- The truncation of a double that is not negative is its floor. -/
theorem c_trunc_of_nonneg (q : ℚ) (h : 0 ≤ q) : c_trunc q = ⌊q⌋ := by
  unfold c_trunc
  rw [if_pos h]

theorem accesses_ok_fractional_ops : ∀ op ∈ fractional_ops, accesses_ok 10 op := by
  intro op hop
  simp only [fractional_ops, List.mem_cons, List.mem_singleton, List.not_mem_nil, or_false] at hop
  rcases hop with rfl | rfl
  · trivial
  · intro j hj
    rw [mem_frame_range, c_trunc_of_nonneg _ (by norm_num)] at hj
    have h0 : (0 : Int) ≤ ⌊(5 / 2 : ℚ)⌋ := Int.floor_nonneg.mpr (by norm_num)
    have h5 : j ≤ 5 := by exact_mod_cast hj.2
    exact ⟨by omega, lt_table_slots 10 j (by omega) (by omega)⟩

/-- The integer part of 2.5. -/
theorem floor_five_halves : ⌊(5 / 2 : ℚ)⌋ = 2 := by
  rw [Int.floor_eq_iff]
  constructor <;> norm_num

/-! ## The claims -/

/-- C1 (the code at the witness of the claim).  On scenario A, whose VARY is
VARY(k, 0, 9, 0, 90), `second_pass` succeeds; the list of frame 0 holds the one
node (k, 0) and the list of frame 9 holds the one node (k, -90), whereas the
formula of the spec gives 0 at frame 0 and 90 at frame 9.  The value at the
end frame is `2 * start_val - end_val`, not `end_val`: the slope `d` is
multiplied by `start_frame - j` instead of `j - start_frame`. -/
theorem C1_end_value_negated :
    (second_pass 10 scenario_A).map (fun knobs => (knobs 0, knobs 9))
      = some ([⟨"k", some 0⟩], [⟨"k", some (-90)⟩]) ∧
    spec_vary_value 0 9 0 90 0 = 0 ∧ spec_vary_value 0 9 0 90 9 = 90 := by
  refine ⟨?_, by norm_num [spec_vary_value], by norm_num [spec_vary_value]⟩
  rw [second_pass_scenario_A]
  simp only [scenario_A, List.filterMap_cons, node_at, mem_frame_range, vary_value, ddiv,
    List.filterMap_nil]
  norm_num [c_trunc]

/-- C2 (the code at a failing input).  For [FRAMES 10, VARY(k,0,9,0,90),
VARY(k,0,9,100,200)] and frame 0, the earlier operation interpolates 0 and the
later one 100.  `second_pass` puts the node of the later operation in front of
the node of the earlier one, and the loop of `my_main` that applies the list
from its head writes 100 and then 0: the symbol table ends with the value 0 of
the earlier operation. -/
theorem C2_first_write_wins :
    vary_value 0 9 0 90 0 = some 0 ∧ vary_value 0 9 100 200 0 = some 100 ∧
    (second_pass 10 overlap_ops).map
        (fun knobs => (knobs 0, (apply_knobs (init_state exprLib symtab0) (knobs 0)).symtab "k"))
      = some ([⟨"k", some 100⟩, ⟨"k", some 0⟩], some (some 0)) := by
  refine ⟨by norm_num [vary_value, ddiv], by norm_num [vary_value, ddiv], ?_⟩
  rw [second_pass_eq 10 overlap_ops accesses_ok_overlap_ops]
  simp only [overlap_ops, List.filterMap_cons, node_at, mem_frame_range, vary_value, ddiv,
    List.filterMap_nil]
  norm_num [c_trunc, apply_knobs, set_value]

/-- C3 (the code, for every matrix library).  The cases MOVE, SCALE and ROTATE
never read the symbol table: run under two symbol tables `symtab1` and
`symtab2`, an operation that names a knob `k` leaves the same stack, built from
its literal operands.  On scenario A the knob k holds 0 when the operations of
frame 0 run and -90 when those of frame 9 run, and in both frames the stack
ends as `[ident * make_translate(1, 0, 0)]`. -/
theorem C3_knob_value_not_used {M : Type} (E : MatrixLib M) (st : State M)
    (symtab1 symtab2 : String → Option CDouble) (k : String) (d0 d1 d2 axis degrees : ℚ) :
    ((exec_op E { st with symtab := symtab1 } (Op.move d0 d1 d2 (some k))).map State.systems
      = (exec_op E { st with symtab := symtab2 } (Op.move d0 d1 d2 (some k))).map State.systems) ∧
    ((exec_op E { st with symtab := symtab1 } (Op.scale d0 d1 d2 (some k))).map State.systems
      = (exec_op E { st with symtab := symtab2 } (Op.scale d0 d1 d2 (some k))).map State.systems) ∧
    ((exec_op E { st with symtab := symtab1 } (Op.rotate axis degrees (some k))).map State.systems
      = (exec_op E { st with symtab := symtab2 } (Op.rotate axis degrees (some k))).map
          State.systems) ∧
    (∃ knobs, second_pass 10 scenario_A = some knobs ∧
      (apply_knobs (init_state E symtab1) (knobs 0)).symtab "k" = some (some 0) ∧
      (apply_knobs (init_state E symtab1) (knobs 9)).symtab "k" = some (some (-90)) ∧
      (run_ops E (apply_knobs (init_state E symtab1) (knobs 0)) scenario_A).map State.systems
        = some [E.mult E.ident (E.make_translate 1 0 0)] ∧
      (run_ops E (apply_knobs (init_state E symtab1) (knobs 9)) scenario_A).map State.systems
        = some [E.mult E.ident (E.make_translate 1 0 0)]) := by
  refine ⟨?_, ?_, ?_, ?_⟩
  · simp [exec_op, apply_transform]
    cases peek st.systems <;> simp
    cases set_top _ st.systems <;> simp
  · simp [exec_op, apply_transform]
    cases peek st.systems <;> simp
    cases set_top _ st.systems <;> simp
  · simp only [exec_op, apply_transform]
    cases peek st.systems <;> simp
    cases set_top _ st.systems <;> simp
  · refine ⟨_, second_pass_scenario_A, ?_⟩
    simp only [scenario_A, List.filterMap_cons, node_at, mem_frame_range, vary_value, ddiv,
      List.filterMap_nil]
    norm_num [c_trunc, apply_knobs, set_value, init_state, run_ops, step, exec_op,
      apply_transform, peek, set_top, new_stack]

/-- C4.  `first_pass` calls `exit(1)` if and only if the operation list holds
a VARY and holds no FRAMES, wherever they stand in the list.  When it does,
`my_main` ends with status 1 having made only the two calls `clear_screen` and
`clear_zbuffer` that precede `first_pass`: no draw, save, display, export of a
frame or `make_animation` call, and the symbol table is the one it started
with. -/
theorem C4_vary_without_frames_aborts {M : Type} (E : MatrixLib M) (g : Globals)
    (symtab : String → Option CDouble) (ops : List Op) :
    (first_pass g ops = Except.error 1 ↔
      (∃ p s e v0 v1, Op.vary p s e v0 v1 ∈ ops) ∧ ¬ ∃ n, Op.frames n ∈ ops) ∧
    (first_pass g ops = Except.error 1 →
      ∃ st, my_main E g symtab ops = Run.exited 1 st ∧
        st.out = [Event.clear_screen, Event.clear_zbuffer] ∧ st.symtab = symtab) := by
  refine ⟨first_pass_error_iff g ops, fun h => ⟨init_state E symtab, ?_, rfl, rfl⟩⟩
  simp [my_main, h]

/-- C4 at scenario C, [BOX, VARY(k, 0, 9, 0, 90)]. -/
theorem C4_vary_without_frames_aborts_witness :
    ∃ st, my_main exprLib globals0 symtab0 scenario_C = Run.exited 1 st ∧
      st.out = [Event.clear_screen, Event.clear_zbuffer] ∧ st.symtab = symtab0 :=
  (C4_vary_without_frames_aborts exprLib globals0 symtab0 scenario_C).2
    ((C4_vary_without_frames_aborts exprLib globals0 symtab0 scenario_C).1.mpr
      ⟨⟨"k", 0, 9, 0, 90, by simp [scenario_C]⟩, by simp [scenario_C]⟩)

/-- C5.  (1) If the last FRAMES operation of the list is FRAMES(n), then
`first_pass` returns and `num_frames` is n.  (2) If the list holds neither
FRAMES nor VARY, `first_pass` returns, prints nothing and leaves `num_frames`
as it was; when that is the default value 1, `my_main` is exactly one pass of
the operation loop from the initial state (the body of the frame loop runs
once, the list of knobs of frame 0 being empty, and the stack and buffers are
not reset), and a run that returns has made no export of a frame and no
`make_animation` call. -/
theorem C5_frame_count {M : Type} (E : MatrixLib M) (g : Globals)
    (symtab : String → Option CDouble) (ops : List Op) :
    (∀ pre n post, ops = pre ++ Op.frames n :: post → (∀ m, Op.frames m ∉ post) →
      ∃ r, first_pass g ops = Except.ok r ∧ r.1.num_frames = n) ∧
    ((∀ n, Op.frames n ∉ ops) → (∀ p s e v0 v1, Op.vary p s e v0 v1 ∉ ops) →
      (∃ r, first_pass g ops = Except.ok r ∧ r.1.num_frames = g.num_frames ∧ r.2 = []) ∧
      (g.num_frames = default_num_frames →
        (my_main E g symtab ops =
          match run_ops E { init_state E symtab with
              out := [Event.clear_screen, Event.clear_zbuffer, Event.print_knobs] } ops with
          | some st => Run.done st
          | none => Run.fault) ∧
        ∀ st, my_main E g symtab ops = Run.done st →
          st.out.filter Event.is_sequence_call = [])) := by
  constructor
  · intro pre n post hops hpost
    have hff : (first_pass_scan g ops).frames_found = true := by
      rw [first_pass_scan, foldl_frames_found]
      right
      exact ⟨n, by rw [hops]; simp⟩
    obtain ⟨r, hr, hn⟩ := first_pass_ok_of_frames_found g ops hff
    refine ⟨r, hr, ?_⟩
    rw [hn, hops, first_pass_scan, List.foldl_append, List.foldl_cons,
      foldl_num_frames post _ hpost]
    rfl
  · intro hf hv
    refine ⟨⟨_, first_pass_ok_of_no_frames_no_vary g ops hf hv, rfl, rfl⟩, ?_⟩
    intro hg
    have hmain := my_main_single_frame E g symtab ops hf hv hg
    refine ⟨hmain, ?_⟩
    intro st hst
    rw [hmain] at hst
    cases hrun : run_ops E { init_state E symtab with
        out := [Event.clear_screen, Event.clear_zbuffer, Event.print_knobs] } ops with
    | none => rw [hrun] at hst; cases hst
    | some s =>
      rw [hrun] at hst
      injection hst with hst
      subst hst
      rw [run_ops_filter E ops _ _ hrun]
      simp [Event.is_sequence_call]

/-- C5 at [FRAMES 3, BASENAME anim, PUSH, BOX, POP, SAVE] and at scenario B. -/
theorem C5_frame_count_witness :
    (∃ r, first_pass globals0 scenario_frames3 = Except.ok r ∧ r.1.num_frames = 3) ∧
    (my_main exprLib globals0 symtab0 scenario_B =
      match run_ops exprLib { init_state exprLib symtab0 with
          out := [Event.clear_screen, Event.clear_zbuffer, Event.print_knobs] } scenario_B with
      | some st => Run.done st
      | none => Run.fault) :=
  ⟨(C5_frame_count exprLib globals0 symtab0 scenario_frames3).1 [] 3
      [.basename "anim", .push, .box 0 0 0 1 1 1, .pop, .save "last.png"] rfl (by simp),
    ((C5_frame_count exprLib globals0 symtab0 scenario_B).2 (by simp [scenario_B])
      (by simp [scenario_B])).2 rfl |>.1⟩

/-- C6.  From a state whose stack is not empty, and for every sequence `T`
(possibly empty) of MOVE, SCALE, ROTATE, BOX, SPHERE, TORUS and LINE
operations, the run of PUSH, `T`, POP succeeds and leaves the whole stack as
it was before the PUSH.  In PUSH, MOVE(5,0,0), BOX, POP, BOX run on a stack of
top `top`, the first box is drawn with `top * make_translate(5,0,0)` and the
second with `top`. -/
theorem C6_push_pop_restores_scope {M : Type} (E : MatrixLib M) (st : State M) (T : List Op)
    (hne : st.systems ≠ []) (hT : ∀ op ∈ T, op.is_transform_or_draw = true) :
    (∃ st', run_ops E st (Op.push :: T ++ [Op.pop]) = some st' ∧ st'.systems = st.systems) ∧
    (∀ top rest x0 y0 z0 x1 y1 z1 a0 b0 c0 a1 b1 c1, st.systems = top :: rest →
      ∃ st', run_ops E st [Op.push, Op.move 5 0 0 none, Op.box x0 y0 z0 x1 y1 z1, Op.pop,
          Op.box a0 b0 c0 a1 b1 c1] = some st' ∧
        st'.systems = st.systems ∧
        st'.out = st.out ++ [Event.printf "\n", Event.printf_move 5 0 0, Event.printf "\n",
          Event.draw_polygons (E.mult top (E.make_translate 5 0 0))
            [Prim.box x0 y0 z0 x1 y1 z1],
          Event.printf "\n", Event.printf "\n",
          Event.draw_polygons top [Prim.box a0 b0 c0 a1 b1 c1], Event.printf "\n"]) := by
  constructor
  · obtain ⟨x, tl, hs⟩ := List.exists_cons_of_ne_nil hne
    obtain ⟨st1, e1, hs1⟩ := step_push E st x tl hs
    obtain ⟨st2, x2, e2, hs2⟩ := run_ops_keeps_tail E T st1 x (x :: tl) hs1
      (fun op hop => ne_push_pop_of_transform_or_draw op (hT op hop))
    obtain ⟨st3, e3, hs3⟩ := step_pop E st2 x2 x tl hs2
    refine ⟨st3, ?_, by rw [hs3, hs]⟩
    have : Op.push :: T ++ [Op.pop] = Op.push :: (T ++ [Op.pop]) := rfl
    rw [this, run_ops_cons, e1, Option.some_bind, run_ops_append, e2, Option.some_bind,
      run_ops_cons, e3]
    simp [run_ops]
  · intro top rest x0 y0 z0 x1 y1 z1 a0 b0 c0 a1 b1 c1 hs
    simp [run_ops, step, exec_op, draw_solid, apply_transform, peek, set_top, push, pop, hs,
      knob_line]

/-- C6 at `T` = [MOVE(5,0,0), BOX] on the initial stack. -/
theorem C6_push_pop_restores_scope_witness :
    ∃ st', run_ops exprLib (init_state exprLib symtab0)
        (Op.push :: [Op.move 5 0 0 none, Op.box 0 0 0 1 1 1] ++ [Op.pop]) = some st' ∧
      st'.systems = (init_state exprLib symtab0).systems :=
  (C6_push_pop_restores_scope exprLib (init_state exprLib symtab0)
    [Op.move 5 0 0 none, Op.box 0 0 0 1 1 1] (by simp [init_state, new_stack])
    (by simp [Op.is_transform_or_draw])).1

/-- C7.  From a state whose stack is the initial single-element stack, and
for every operation sequence no prefix of which has more POPs than PUSHes:
the run of every prefix succeeds and leaves a stack of depth
1 + (#PUSH - #POP) of that prefix, which is at least 1; so does the run of the
whole sequence.  An operation other than PUSH and POP, run on a stack that is
not empty, succeeds and leaves the depth unchanged. -/
theorem C7_stack_depth {M : Type} (E : MatrixLib M) (st : State M) (ops : List Op)
    (h0 : st.systems = new_stack E)
    (hwf : ∀ k, (ops.take k).count Op.pop ≤ (ops.take k).count Op.push) :
    (∀ k, ∃ st', run_ops E st (ops.take k) = some st' ∧
        (st'.systems.length : Int)
          = 1 + (((ops.take k).count Op.push : Int) - ((ops.take k).count Op.pop : Int)) ∧
        1 ≤ st'.systems.length) ∧
    (∃ st', run_ops E st ops = some st' ∧
        (st'.systems.length : Int)
          = 1 + ((ops.count Op.push : Int) - (ops.count Op.pop : Int))) ∧
    (∀ (s : State M) (op : Op), op ≠ Op.push → op ≠ Op.pop → s.systems ≠ [] →
        ∃ s', step E s op = some s' ∧ s'.systems.length = s.systems.length) := by
  have hlen : (st.systems.length : Int) = 1 := by simp [h0, new_stack]
  have main : ∀ k, ∃ st', run_ops E st (ops.take k) = some st' ∧
        (st'.systems.length : Int)
          = 1 + (((ops.take k).count Op.push : Int) - ((ops.take k).count Op.pop : Int)) ∧
        1 ≤ st'.systems.length := by
    intro k
    obtain ⟨st', e, hd⟩ := run_ops_depth E (ops.take k) st (by
      intro j
      rw [List.take_take, hlen]
      have := hwf (min j k)
      omega)
    refine ⟨st', e, by rw [hd, hlen]; ring, ?_⟩
    have := hwf k
    rw [hlen] at hd
    omega
  refine ⟨main, ?_, ?_⟩
  swap
  · intro s op h1 h2 hne
    obtain ⟨x, tl, hs⟩ := List.exists_cons_of_ne_nil hne
    obtain ⟨s', x', e, hs'⟩ := step_keeps_tail E s op x tl hs h1 h2
    exact ⟨s', e, by rw [hs', hs]; rfl⟩
  obtain ⟨st', e, hd, _⟩ := main ops.length
  rw [List.take_length] at e hd
  exact ⟨st', e, hd⟩

/-- C7 at [PUSH, MOVE(5,0,0), PUSH, POP] on the initial stack: depth 2. -/
theorem C7_stack_depth_witness :
    ∃ st', run_ops exprLib (init_state exprLib symtab0)
        [Op.push, Op.move 5 0 0 none, Op.push, Op.pop] = some st' ∧
      (st'.systems.length : Int) = 2 := by
  obtain ⟨st', h1, h2⟩ := (C7_stack_depth exprLib (init_state exprLib symtab0)
    [Op.push, Op.move 5 0 0 none, Op.push, Op.pop] rfl
    (by intro k; rcases k with _ | _ | _ | _ | k <;> simp)).2.1
  refine ⟨st', h1, ?_⟩
  rw [h2]
  simp

/-- C8.  (1) A run returns when `first_pass` returns, the loops of the VARY
operations stay inside the block allocated for the table (which reaches beyond
slot `num_frames - 1`), no prefix of the list has more POPs than PUSHes and,
when animating, the file name of every frame fits the buffer `pic_name[128]`.
(2) For a run that returns, with n the frame count set by `first_pass` and
`s0.out` the calls of one pass of the operation loop: if 1 < n the file names
of the frames 0, ..., n-1 fit the buffer and the calls are, after those that precede the frame loop, for each frame
f = 0, ..., n-1 in increasing order the `set_value` calls of the frame, the
calls of one pass of the operation loop and the export of frame f (followed by
the two clears), and at the very end one `make_animation(name)`; the exports
and encodes among all calls are exactly these n exports followed by that one
encode.  If n = 1 the calls are those of one pass, with no export and no
encode.  (3) Scenario B, [BOX, SAVE out.png], returns and its only save is the
one `save_extension("out.png")` of the SAVE operation. -/
theorem C8_frame_sequence {M : Type} (E : MatrixLib M) (g : Globals)
    (symtab : String → Option CDouble) (ops : List Op) :
    (∀ g1 lines, first_pass g ops = Except.ok (g1, lines) →
      (∀ op ∈ ops, accesses_ok g1.num_frames op) →
      (∀ k, (ops.take k).count Op.pop ≤ (ops.take k).count Op.push) →
      (1 < g1.num_frames → ∀ f, f < g1.num_frames.toNat →
        ∃ file, pic_name g1.name f = some file) →
      ∃ st, my_main E g symtab ops = Run.done st) ∧
    (∀ st, my_main E g symtab ops = Run.done st →
      ∃ g1 lines knobs, first_pass g ops = Except.ok (g1, lines) ∧
        second_pass g1.num_frames ops = some knobs ∧
        (1 < g1.num_frames → ∃ s0, run_ops E (fresh_state E) ops = some s0 ∧
          (∀ f, f < g1.num_frames.toNat →
            pic_name g1.name f = some (pic_name_text g1.name f)) ∧
          st.out = [Event.clear_screen, Event.clear_zbuffer] ++ lines.map Event.printf
            ++ [Event.print_knobs]
            ++ (List.range g1.num_frames.toNat).flatMap (fun f =>
                knob_events (knobs f) ++ s0.out ++
                  [Event.save_frame (pic_name_text g1.name f), Event.clear_screen,
                    Event.clear_zbuffer])
            ++ [Event.make_animation g1.name] ∧
          st.out.filter Event.is_sequence_call
            = (List.range g1.num_frames.toNat).map
                (fun f => Event.save_frame (pic_name_text g1.name f))
              ++ [Event.make_animation g1.name]) ∧
        (g1.num_frames = 1 → ∃ s0, run_ops E (fresh_state E) ops = some s0 ∧
          st.out = [Event.clear_screen, Event.clear_zbuffer] ++ lines.map Event.printf
            ++ [Event.print_knobs] ++ knob_events (knobs 0) ++ s0.out ∧
          st.out.filter Event.is_sequence_call = [])) ∧
    (∃ st, my_main E globals0 symtab scenario_B = Run.done st ∧
      st.out = [Event.clear_screen, Event.clear_zbuffer, Event.print_knobs,
        Event.draw_polygons E.ident [Prim.box 0 0 0 1 1 1], Event.printf "\n",
        Event.save_extension "out.png", Event.printf "\n"]) := by
  refine ⟨?_, ?_, ?_⟩
  · intro g1 lines h1 hacc hwf hfit
    obtain ⟨s0, hrun⟩ := run_ops_fresh_of_well_formed E ops hwf
    obtain ⟨st2, h3⟩ := frame_loop_some E g1 (fun f => (ops.filterMap (node_at f)).reverse) ops
      (start_state E symtab lines) rfl rfl s0 hrun (by
        intro hn f hf
        obtain ⟨file, hfile⟩ := hfit hn f hf
        rw [hfile, pic_name_eq_some g1.name f file hfile])
    rw [my_main_eq E g g1 symtab ops lines _ h1 (second_pass_eq _ ops hacc), h3]
    exact ⟨_, rfl⟩
  · intro st h
    obtain ⟨g1, lines, knobs, st2, h1, h2, h3, hst⟩ := my_main_done E g symtab ops st h
    refine ⟨g1, lines, knobs, h1, h2, ?_, ?_⟩
    · intro hn
      cases hrun : run_ops E (fresh_state E) ops with
      | none =>
        rw [frame_loop_none E g1 knobs ops _ rfl rfl (by omega) hrun] at h3
        cases h3
      | some s0 =>
        have hfit := frame_loop_fits E g1 knobs ops (start_state E symtab lines) hn rfl rfl
          g1.num_frames.toNat st2 h3
        obtain ⟨σ, e⟩ := frame_loop_many E g1 knobs ops hn s0 hrun g1.num_frames.toNat
          (start_state E symtab lines) rfl rfl hfit
        unfold frame_loop at h3
        rw [e] at h3
        injection h3 with h3
        subst h3
        rw [if_pos hn] at hst
        subst hst
        refine ⟨s0, rfl, hfit, by simp [start_state], ?_⟩
        simp only [start_state, List.filter_append,
          filter_frames (fun f => knob_events (knobs f)) s0.out g1.name
            (fun f => knob_events_filter (knobs f)) (run_ops_fresh_filter E ops s0 hrun),
          printf_lines_filter]
        simp [Event.is_sequence_call]
    · intro hn
      rw [frame_loop_one E g1 knobs ops _ hn] at h3
      obtain ⟨σ, e⟩ := apply_knobs_eq (knobs 0) (start_state E symtab lines)
      have hr := run_ops_rebase E σ ((start_state E symtab lines).out ++ knob_events (knobs 0))
        ops (fresh_state E)
      simp only [fresh_state, List.append_nil] at hr
      rw [e] at h3
      simp only [start_state] at h3 hr
      rw [hr] at h3
      cases hrun : run_ops E (fresh_state E) ops with
      | none =>
        simp only [fresh_state] at hrun
        rw [hrun] at h3
        cases h3
      | some s0 =>
        have hf := run_ops_fresh_filter E ops s0 hrun
        simp only [fresh_state] at hrun
        rw [hrun] at h3
        injection h3 with h3
        subst h3
        rw [if_neg (by omega)] at hst
        subst hst
        refine ⟨s0, rfl, rfl, ?_⟩
        simp only [List.filter_append, knob_events_filter, printf_lines_filter, hf]
        simp [Event.is_sequence_call]
  · rw [my_main_single_frame E globals0 symtab scenario_B (by simp [scenario_B])
      (by simp [scenario_B]) rfl]
    simp [run_ops, scenario_B, step, exec_op, draw_solid, peek, init_state, new_stack]

/-- C8 at [FRAMES 3, BASENAME anim, VARY(k, 0, 5, 0, 90), PUSH, BOX, POP],
whose VARY reaches the slots 3, 4 and 5 beyond the three frames: the run
returns and its exports and encodes are the three frames in order, then the
encode. -/
theorem C8_frame_sequence_witness :
    ∃ st, my_main exprLib globals0 symtab0 overrun_ops = Run.done st ∧
      st.out.filter Event.is_sequence_call
        = [Event.save_frame "anim/anim000.png", Event.save_frame "anim/anim001.png",
            Event.save_frame "anim/anim002.png", Event.make_animation "anim"] := by
  have hfp : first_pass globals0 overrun_ops = Except.ok (⟨3, "anim"⟩, []) := rfl
  obtain ⟨st, hst⟩ := (C8_frame_sequence exprLib globals0 symtab0 overrun_ops).1
    ⟨3, "anim"⟩ [] hfp
    (by
      intro op hop
      simp [overrun_ops] at hop
      rcases hop with h | h | h | h | h | h <;> subst h
      · trivial
      · trivial
      · intro j hj
        rw [mem_frame_range] at hj
        have h0 : c_trunc 0 = 0 := by norm_num [c_trunc]
        have h5 : j ≤ 5 := by exact_mod_cast hj.2
        rw [h0] at hj
        refine ⟨hj.1, ?_⟩
        norm_num [table_slots, sizeof_vary_node, sizeof_pointer]
        omega
      · trivial
      · trivial
      · trivial)
    (by intro k; rcases k with _ | _ | _ | _ | _ | _ | k <;> simp [overrun_ops])
    (by
      intro _ f hf
      have hf3 : f < 3 := hf
      exact ⟨_, pic_name_of_short "anim" f (by omega) (by decide)⟩)
  obtain ⟨g1, lines, knobs, h1, _, hmany, _⟩ :=
    (C8_frame_sequence exprLib globals0 symtab0 overrun_ops).2.1 st hst
  rw [hfp] at h1
  injection h1 with h1
  injection h1 with hg hl
  subst hg
  obtain ⟨s0, _, _, _, hf⟩ := hmany (by decide)
  refine ⟨st, hst, ?_⟩
  rw [hf]
  have h3 : (3 : Int).toNat = 3 := rfl
  simp only [h3, List.range_succ, List.range_zero, List.map_append, List.map_cons, List.map_nil,
    List.nil_append, List.cons_append, pic_name_anim_examples]

/-- C9 as stated fails for a basename of 116 characters: `sprintf` would
write 129 bytes into `pic_name[128]`, so no file name is built, for frame 2 as
for frame 87, and the two cannot be compared. -/
theorem C9_long_basename_counterexample :
    long_basename.length = 116 ∧
    pic_name long_basename 2 = none ∧ pic_name long_basename 87 = none ∧
    ¬ ∃ a b, pic_name long_basename 2 = some a ∧ pic_name long_basename 87 = some b ∧
        a < b := by
  have hlen : long_basename.length = 116 := by
    simp [long_basename, String.length]
  have h2 : pic_name long_basename 2 = none := pic_name_of_long _ _ (by rw [hlen]; decide)
  refine ⟨hlen, h2, pic_name_of_long _ _ (by rw [hlen]; decide), ?_⟩
  rintro ⟨a, b, ha, _⟩
  rw [h2] at ha
  cases ha

/-- C9 amended.  For every basename of at most 115 characters and all frames
f < g < 1000, `sprintf` fits the buffer; the file name of frame f is "anim/",
the name, the three decimal digits of f (hundreds, tens, units, so zeros fill
the left) and ".png"; 2, 87 and 149 are written "002", "087" and "149"; and
the file name of frame f is strictly below the file name of frame g in the
lexicographic order of strings. -/
theorem C9_sequenced_naming (name : String) (f g : Nat) (hn : name.length ≤ 115)
    (hfg : f < g) (hg : g < 1000) :
    ∃ a b, pic_name name f = some a ∧ pic_name name g = some b ∧
      a = "anim/" ++ name ++ fmt_03d f ++ ".png" ∧
      b = "anim/" ++ name ++ fmt_03d g ++ ".png" ∧
      (fmt_03d f).data = [Char.ofNat (48 + f / 100), Char.ofNat (48 + f / 10 % 10),
        Char.ofNat (48 + f % 10)] ∧
      (fmt_03d g).data = [Char.ofNat (48 + g / 100), Char.ofNat (48 + g / 10 % 10),
        Char.ofNat (48 + g % 10)] ∧
      fmt_03d 2 = "002" ∧ fmt_03d 87 = "087" ∧ fmt_03d 149 = "149" ∧
      a < b := by
  refine ⟨_, _, pic_name_of_short name f (by omega) hn, pic_name_of_short name g hg hn,
    rfl, rfl, by rw [fmt_03d_eq f (by omega)]; rfl, by rw [fmt_03d_eq g hg]; rfl,
    by simp [fmt_03d], by simp [fmt_03d], by simp [fmt_03d], ?_⟩
  rw [String.lt_iff_toList_lt]
  simp only [String.toList]
  simp only [pic_name_text, String.data_append, fmt_03d_eq f (by omega), fmt_03d_eq g hg,
    List.append_assoc]
  exact list_lt_append_left _ (list_lt_append_left _ (digits3_lt f g hfg hg _))

/-- C9 amended at the name "anim" and the frames 87 and 149. -/
theorem C9_sequenced_naming_witness :
    ∃ a b, pic_name "anim" 87 = some a ∧ pic_name "anim" 149 = some b ∧
      a = "anim/" ++ "anim" ++ fmt_03d 87 ++ ".png" ∧
      b = "anim/" ++ "anim" ++ fmt_03d 149 ++ ".png" ∧
      (fmt_03d 87).data = [Char.ofNat (48 + 87 / 100), Char.ofNat (48 + 87 / 10 % 10),
        Char.ofNat (48 + 87 % 10)] ∧
      (fmt_03d 149).data = [Char.ofNat (48 + 149 / 100), Char.ofNat (48 + 149 / 10 % 10),
        Char.ofNat (48 + 149 % 10)] ∧
      fmt_03d 2 = "002" ∧ fmt_03d 87 = "087" ∧ fmt_03d 149 = "149" ∧
      a < b :=
  C9_sequenced_naming "anim" 87 149 (by decide) (by decide) (by decide)

/-- C10 as stated fails for [FRAMES 10, VARY(k, 2.5, 5, 0, 90)], whose range
lies inside [0, 10): the loop starts at `int j = 2.5`, that is at 2, so the
list of frame 2 holds a node named k although no VARY for k has
start_frame <= 2 <= end_frame. -/
theorem C10_fractional_start_counterexample :
    (second_pass 10 fractional_ops).map (fun knobs => (knobs 2).map vary_node.name)
      = some ["k"] ∧
    ¬ ∃ s e v0 v1, Op.vary "k" s e v0 v1 ∈ fractional_ops ∧
        s ≤ ((2 : Nat) : ℚ) ∧ ((2 : Nat) : ℚ) ≤ e := by
  constructor
  · rw [second_pass_eq 10 fractional_ops accesses_ok_fractional_ops]
    simp only [fractional_ops, List.filterMap_cons, node_at, mem_frame_range,
      c_trunc_of_nonneg (5 / 2 : ℚ) (by norm_num), floor_five_halves, List.filterMap_nil]
    norm_num
  · rintro ⟨s, e, v0, v1, hop, hs, _⟩
    have h2 : s = 5 / 2 := by
      simp [fractional_ops] at hop
      exact hop.1
    rw [h2] at hs
    norm_num at hs

/-- C10 amended.  If every VARY of the list has a start frame that is at
least 0 and an end frame below `num_frames`, then `second_pass` returns a
table, and for every knob name k and frame j below `num_frames`: the list of
frame j holds a node named k if and only if some VARY for k has
floor(start_frame) <= j <= end_frame (the loop starts at the start frame
converted to an int; for an integer start frame this is
start_frame <= j <= end_frame); and the list of frame j is empty if and only
if no VARY covers j in this sense. -/
theorem C10_binding_iff_covered (n : Int) (ops : List Op)
    (h : ∀ p s e v0 v1, Op.vary p s e v0 v1 ∈ ops → 0 ≤ s ∧ e < (n : ℚ)) :
    ∃ knobs, second_pass n ops = some knobs ∧
      ∀ (k : String) (j : Nat), (j : Int) < n →
        ((∃ node ∈ knobs j, node.name = k) ↔
          ∃ s e v0 v1, Op.vary k s e v0 v1 ∈ ops ∧ ⌊s⌋ ≤ (j : Int) ∧ (j : ℚ) ≤ e) ∧
        (knobs j = [] ↔
          ¬ ∃ p s e v0 v1, Op.vary p s e v0 v1 ∈ ops ∧ ⌊s⌋ ≤ (j : Int) ∧ (j : ℚ) ≤ e) := by
  have hmem : ∀ p s e v0 v1, Op.vary p s e v0 v1 ∈ ops → ∀ j : Int,
      (j ∈ frame_range s e ↔ ⌊s⌋ ≤ j ∧ (j : ℚ) ≤ e) := by
    intro p s e v0 v1 hop j
    rw [mem_frame_range, c_trunc_of_nonneg s (h p s e v0 v1 hop).1]
  have hacc : ∀ op ∈ ops, accesses_ok n op := by
    intro op hop
    cases op with
    | vary p s e v0 v1 =>
      obtain ⟨h0, he⟩ := h p s e v0 v1 hop
      intro j hj
      obtain ⟨a, b⟩ := (hmem p s e v0 v1 hop j).mp hj
      have hf : (0 : Int) ≤ ⌊s⌋ := Int.floor_nonneg.mpr h0
      have : (j : ℚ) < (n : ℚ) := lt_of_le_of_lt b he
      have : j < n := by exact_mod_cast this
      exact ⟨by omega, lt_table_slots n j (by omega) (by omega)⟩
    | _ => trivial
  have hnode : ∀ (j : Nat) (op : Op) (node : vary_node), op ∈ ops →
      (node_at j op = some node ↔ ∃ p s e v0 v1, op = Op.vary p s e v0 v1 ∧
        ⌊s⌋ ≤ (j : Int) ∧ (j : ℚ) ≤ e ∧ node = ⟨p, vary_value s e v0 v1 j⟩) := by
    intro j op node hop
    cases op with
    | vary p s e v0 v1 =>
      have hcov : (j : Int) ∈ frame_range s e ↔ ⌊s⌋ ≤ (j : Int) ∧ (j : ℚ) ≤ e := by
        have := hmem p s e v0 v1 hop (j : Int)
        simpa using this
      simp only [node_at]
      by_cases hc : (j : Int) ∈ frame_range s e
      · simp only [hc, if_true, Option.some.injEq]
        constructor
        · intro hn
          exact ⟨p, s, e, v0, v1, rfl, (hcov.mp hc).1, (hcov.mp hc).2, hn.symm⟩
        · rintro ⟨p', s', e', v0', v1', heq, _, _, hn⟩
          cases heq
          exact hn.symm
      · simp only [hc, if_false]
        constructor
        · intro hn; cases hn
        · rintro ⟨p', s', e', v0', v1', heq, a, b, _⟩
          cases heq
          exact absurd (hcov.mpr ⟨a, b⟩) hc
    | _ => simp [node_at]
  refine ⟨_, second_pass_eq n ops hacc, ?_⟩
  intro k j _
  constructor
  · simp only [List.mem_reverse, List.mem_filterMap]
    constructor
    · rintro ⟨node, ⟨op, hop, hn⟩, hk⟩
      obtain ⟨p, s, e, v0, v1, heq, a, b, hnode2⟩ := (hnode j op node hop).mp hn
      subst heq
      subst hnode2
      simp only at hk
      subst hk
      exact ⟨s, e, v0, v1, hop, a, b⟩
    · rintro ⟨s, e, v0, v1, hop, a, b⟩
      exact ⟨⟨k, vary_value s e v0 v1 j⟩, ⟨_, hop,
        (hnode j _ _ hop).mpr ⟨k, s, e, v0, v1, rfl, a, b, rfl⟩⟩, rfl⟩
  · simp only [List.reverse_eq_nil_iff, List.filterMap_eq_nil_iff]
    constructor
    · rintro hall ⟨p, s, e, v0, v1, hop, a, b⟩
      have := hall _ hop
      rw [(hnode j _ ⟨p, vary_value s e v0 v1 j⟩ hop).mpr ⟨p, s, e, v0, v1, rfl, a, b, rfl⟩]
        at this
      cases this
    · intro hno op hop
      cases hn : node_at j op with
      | none => rfl
      | some node =>
        obtain ⟨p, s, e, v0, v1, heq, a, b, _⟩ := (hnode j op node hop).mp hn
        subst heq
        exact absurd ⟨p, s, e, v0, v1, hop, a, b⟩ hno

/-- C10 amended at [FRAMES 10, VARY(k, 2.5, 5, 0, 90)] and a table of 10
frames. -/
theorem C10_binding_iff_covered_witness :
    ∃ knobs, second_pass 10 fractional_ops = some knobs ∧
      ∀ (k : String) (j : Nat), (j : Int) < 10 →
        ((∃ node ∈ knobs j, node.name = k) ↔
          ∃ s e v0 v1, Op.vary k s e v0 v1 ∈ fractional_ops ∧
            ⌊s⌋ ≤ (j : Int) ∧ (j : ℚ) ≤ e) ∧
        (knobs j = [] ↔
          ¬ ∃ p s e v0 v1, Op.vary p s e v0 v1 ∈ fractional_ops ∧
            ⌊s⌋ ≤ (j : Int) ∧ (j : ℚ) ≤ e) :=
  C10_binding_iff_covered 10 fractional_ops (by
    intro p s e v0 v1 hop
    have h2 : s = 5 / 2 ∧ e = 5 := by
      simp [fractional_ops] at hop
      exact ⟨hop.2.1, hop.2.2.1⟩
    rw [h2.1, h2.2]
    constructor <;> norm_num)

/-- C11 (the code at a failing input).  On scenario A, whose VARY is
VARY(k, 0, 9, 0, 90) with end_val above start_val, `second_pass` binds 0, -10
and -20 at the frames 0, 1 and 2: the values go down, whereas the formula of
the spec gives 0, 10 and 20.  The values are monotonic in the direction
opposite to the sign of `end_val - start_val`. -/
theorem C11_values_move_away :
    (second_pass 10 scenario_A).map (fun knobs => (knobs 0, knobs 1, knobs 2))
      = some ([⟨"k", some 0⟩], [⟨"k", some (-10)⟩], [⟨"k", some (-20)⟩]) ∧
    spec_vary_value 0 9 0 90 0 = 0 ∧ spec_vary_value 0 9 0 90 1 = 10 ∧
      spec_vary_value 0 9 0 90 2 = 20 := by
  refine ⟨?_, by norm_num [spec_vary_value], by norm_num [spec_vary_value],
    by norm_num [spec_vary_value]⟩
  rw [second_pass_scenario_A]
  simp only [scenario_A, List.filterMap_cons, node_at, mem_frame_range, vary_value, ddiv,
    List.filterMap_nil]
  norm_num [c_trunc]

/-- C12.  (1) If the last BASENAME of the list is BASENAME(nm), with nm shorter
than 128 characters, then after the loop of `first_pass` the variable `name`
is nm, and unless `first_pass` calls `exit(1)` it returns with the name nm and
prints nothing.  (2) If the list holds no BASENAME and holds a FRAMES, then
`first_pass` returns with the name "basename" and prints the one line
"Basename used: basename". -/
theorem C12_basename (g : Globals) (ops : List Op) :
    (∀ pre nm post, ops = pre ++ Op.basename nm :: post → (∀ m, Op.basename m ∉ post) →
      nm.length < 128 →
      (first_pass_scan g ops).g.name = nm ∧
      (first_pass g ops ≠ Except.error 1 →
        first_pass g ops = Except.ok (⟨(first_pass_scan g ops).g.num_frames, nm⟩, []))) ∧
    ((∀ m, Op.basename m ∉ ops) → (∃ n, Op.frames n ∈ ops) →
      first_pass g ops = Except.ok
        (⟨(first_pass_scan g ops).g.num_frames, "basename"⟩, ["Basename used: basename\n"])) := by
  constructor
  · intro pre nm post hops hpost hlen
    obtain ⟨hname, hfound⟩ := first_pass_scan_basename g pre post nm hpost
    rw [← hops, strncpy_of_length_lt nm 128 hlen] at hname
    rw [← hops] at hfound
    refine ⟨hname, fun hne => ?_⟩
    rcases first_pass_cases g ops with h | ⟨_, h, _⟩ | ⟨_, h⟩
    · exact absurd h hne
    · rw [hfound] at h
      cases h
    · rw [h, ← hname]
  · intro hno hfr
    have hff : (first_pass_scan g ops).frames_found = true := by
      rw [first_pass_scan, foldl_frames_found]
      exact Or.inr hfr
    have hnf : (first_pass_scan g ops).name_found = false := by
      cases hc : (first_pass_scan g ops).name_found
      · rfl
      · rw [first_pass_scan, foldl_name_found] at hc
        rcases hc with hc | ⟨m, hm⟩
        · cases hc
        · exact absurd hm (hno m)
    rcases first_pass_cases g ops with h | ⟨_, _, h⟩ | ⟨hneg, _⟩
    · obtain ⟨r, hr, _⟩ := first_pass_ok_of_frames_found g ops hff
      rw [h] at hr
      cases hr
    · exact h
    · exact absurd ⟨hff, hnf⟩ hneg

/-- C12 at scenario A (BASENAME anim) and at [FRAMES 5, VARY] (no BASENAME). -/
theorem C12_basename_witness :
    first_pass globals0 scenario_A = Except.ok (⟨10, "anim"⟩, []) ∧
    first_pass globals0 [Op.frames 5, Op.vary "k" 0 4 0 1]
      = Except.ok (⟨5, "basename"⟩, ["Basename used: basename\n"]) := by
  constructor
  · have h := (C12_basename globals0 scenario_A).1 [Op.frames 10] "anim"
      [Op.vary "k" 0 9 0 90, Op.move 1 0 0 (some "k")] rfl (by simp) (by decide)
    have h2 := h.2 (by
      rw [Ne, first_pass_error_iff]
      simp [scenario_A])
    rw [h2]
    rfl
  · have h := (C12_basename globals0 [Op.frames 5, Op.vary "k" 0 4 0 1]).2 (by simp)
      ⟨5, by simp⟩
    rw [h]
    rfl

/-- C13 as stated fails: the run of scenario B, [BOX, SAVE out.png], does not
print the default-basename message exactly once. -/
theorem C13_scenario_B_message_counterexample :
    ¬ ∃ st, my_main exprLib globals0 symtab0 scenario_B = Run.done st ∧
        (st.out.filter Event.is_basename_message).length = 1 := by
  rintro ⟨st, hst, hlen⟩
  rw [my_main_single_frame exprLib globals0 symtab0 scenario_B (by simp [scenario_B])
    (by simp [scenario_B]) rfl] at hst
  simp [run_ops, scenario_B, step, exec_op, draw_solid, peek, init_state, new_stack] at hst
  subst hst
  simp [Event.is_basename_message] at hlen

/-- C13 amended.  On scenario B, [BOX, SAVE out.png], which holds no FRAMES,
`first_pass` prints nothing and leaves the globals as they were, and the run
returns without having printed the default-basename message: the message is
guarded by `frames_found == 1 && name_found == 0`. -/
theorem C13_scenario_B_no_message {M : Type} (E : MatrixLib M)
    (symtab : String → Option CDouble) :
    first_pass globals0 scenario_B = Except.ok (globals0, []) ∧
    ∃ st, my_main E globals0 symtab scenario_B = Run.done st ∧
      st.out.filter Event.is_basename_message = [] := by
  refine ⟨rfl, ?_⟩
  rw [my_main_single_frame E globals0 symtab scenario_B (by simp [scenario_B])
    (by simp [scenario_B]) rfl]
  simp [run_ops, scenario_B, step, exec_op, draw_solid, peek, init_state, new_stack,
    Event.is_basename_message]

/-- C14 as stated fails: for [FRAMES 10, VARY(k, 3, 3, 5, 7)] the quotient
(5 - 7)/(3 - 3) has a zero divisor, `second_pass` does not fail, and the node
it binds at frame 3 holds the non-finite result, not the value 5. -/
theorem C14_degenerate_range_counterexample :
    ddiv (5 - 7) (3 - 3) = none ∧
    (second_pass 10 degenerate_ops).map (fun knobs => knobs 3)
      = some [⟨"k", none⟩] ∧
    ¬ (second_pass 10 degenerate_ops = none ∨
        (second_pass 10 degenerate_ops).map (fun knobs => knobs 3) = some [⟨"k", some 5⟩]) := by
  have h : (second_pass 10 degenerate_ops).map (fun knobs => knobs 3)
      = some [⟨"k", none⟩] := by
    rw [second_pass_eq 10 degenerate_ops accesses_ok_degenerate_ops]
    simp only [degenerate_ops, List.filterMap_cons, node_at, mem_frame_range, vary_value, ddiv,
      List.filterMap_nil]
    norm_num [c_trunc]
  refine ⟨by norm_num [ddiv], h, ?_⟩
  rintro (h1 | h1)
  · rw [h1] at h
    cases h
  · rw [h] at h1
    simp at h1

/-- C14 amended.  For a VARY with start_frame = end_frame = s, a frame of
the table, `second_pass` has no guard: the quotient
(start_val - end_val)/(start_frame - end_frame) has a zero divisor, the
operation does not fail, and it binds exactly one node for the knob, in front
of the list of frame s, whose value is the non-finite result of the division;
the lists of the other frames are unchanged. -/
theorem C14_degenerate_range_binds_non_finite (num_frames : Int) (knobs : Knobs) (p : String)
    (s : Nat) (v0 v1 : ℚ) (hs : (s : Int) < num_frames) :
    ddiv (v0 - v1) ((s : ℚ) - (s : ℚ)) = none ∧
    second_pass_step num_frames knobs (Op.vary p s s v0 v1)
      = some (fun f => if f = s then ⟨p, none⟩ :: knobs f else knobs f) := by
  have hd : ddiv (v0 - v1) ((s : ℚ) - (s : ℚ)) = none := by simp [ddiv]
  refine ⟨hd, ?_⟩
  have hacc : accesses_ok num_frames (Op.vary p s s v0 v1) := by
    have := accesses_ok_vary_int num_frames p (s : Int) (s : Int) v0 v1 (by omega) hs
    simpa using this
  rw [second_pass_step_eq num_frames knobs _ hacc]
  congr 1
  funext f
  have hmem : (f : Int) ∈ frame_range (s : ℚ) (s : ℚ) ↔ f = s := by
    rw [mem_frame_range, c_trunc_ofNat]
    constructor
    · rintro ⟨a, b⟩
      have b2 : f ≤ s := by exact_mod_cast b
      omega
    · rintro rfl
      exact ⟨le_refl _, le_refl _⟩
  by_cases hf : f = s
  · subst hf
    simp [node_at, hmem, vary_value, ddiv]
  · simp [node_at, hmem, hf]

/-- C14 amended at VARY(k, 3, 3, 5, 7) on an empty table of 10 frames. -/
theorem C14_degenerate_range_binds_non_finite_witness :
    second_pass_step 10 (fun _ => []) (Op.vary "k" (3 : Nat) (3 : Nat) 5 7)
      = some (fun f => if f = 3 then [⟨"k", none⟩] else []) :=
  (C14_degenerate_range_binds_non_finite 10 (fun _ => []) "k" 3 5 7 (by decide)).2

/-- C15 as stated fails: `first_pass` returns on [FRAMES 0] with the frame count
0 and on [FRAMES -3, BASENAME anim] with the frame count -3; there is no
validation error. -/
theorem C15_frames_not_validated_counterexample :
    first_pass globals0 [Op.frames 0] = Except.ok
      (⟨0, "basename"⟩, ["Basename used: basename\n"]) ∧
    first_pass globals0 [Op.frames (-3), Op.basename "anim"] = Except.ok (⟨-3, "anim"⟩, []) := by
  constructor <;> rfl

/-- C15 amended.  If the last FRAMES of the list is FRAMES(n) with n <= 0,
`first_pass` does not fail: it returns and the frame count is n, which is not
positive. -/
theorem C15_frames_operand_accepted (g : Globals) (ops pre post : List Op) (n : Int)
    (hops : ops = pre ++ Op.frames n :: post) (hpost : ∀ m, Op.frames m ∉ post)
    (hn : n ≤ 0) :
    ∃ r, first_pass g ops = Except.ok r ∧ r.1.num_frames = n ∧ r.1.num_frames ≤ 0 := by
  have hff : (first_pass_scan g ops).frames_found = true := by
    rw [first_pass_scan, foldl_frames_found]
    right
    exact ⟨n, by rw [hops]; simp⟩
  obtain ⟨r, hr, hnum⟩ := first_pass_ok_of_frames_found g ops hff
  have : r.1.num_frames = n := by
    rw [hnum, hops, first_pass_scan, List.foldl_append, List.foldl_cons,
      foldl_num_frames post _ hpost]
    rfl
  exact ⟨r, hr, this, by rw [this]; exact hn⟩

/-- C15 amended at [FRAMES 10, FRAMES -3, BASENAME anim]. -/
theorem C15_frames_operand_accepted_witness :
    ∃ r, first_pass globals0 [Op.frames 10, Op.frames (-3), Op.basename "anim"] = Except.ok r ∧
      r.1.num_frames = -3 ∧ r.1.num_frames ≤ 0 :=
  C15_frames_operand_accepted globals0 [Op.frames 10, Op.frames (-3), Op.basename "anim"]
    [Op.frames 10] [Op.basename "anim"] (-3) rfl (by simp) (by decide)

/-- C16 (the code at a failing input).  For [FRAMES 10, VARY(k,0,9,0,90),
VARY(k,0,9,100,200)] the list of frame 5 built by `second_pass` holds two
nodes, both named k: the later VARY adds a node in front of the node of the
earlier one instead of overwriting it. -/
theorem C16_two_nodes_for_one_knob :
    (second_pass 10 overlap_ops).map
        (fun knobs => ((knobs 5).map vary_node.name, (knobs 5).length))
      = some (["k", "k"], 2) := by
  rw [second_pass_eq 10 overlap_ops accesses_ok_overlap_ops]
  simp only [overlap_ops, List.filterMap_cons, node_at, mem_frame_range, vary_value, ddiv,
    List.filterMap_nil]
  norm_num [c_trunc]

/-- C17.  On a stack `top :: rest`, the operations MOVE, SCALE and ROTATE
succeed and leave the stack `(top * T) :: rest`, where T is the matrix built
from the operands of the operation: `make_translate`, `make_scale`, or the
rotation about the axis selected by `axis` (0: X, 1: Y, otherwise Z) by
`degrees * (M_PI / 180)`.  The old top is the left factor; the depth and the
entries below the top are unchanged. -/
theorem C17_transform_composes {M : Type} (E : MatrixLib M) (st : State M) (top : M)
    (rest : List M) (hs : st.systems = top :: rest) (p : Option String)
    (d0 d1 d2 axis degrees : ℚ) :
    (∃ st', step E st (Op.move d0 d1 d2 p) = some st' ∧
      st'.systems = E.mult top (E.make_translate d0 d1 d2) :: rest) ∧
    (∃ st', step E st (Op.scale d0 d1 d2 p) = some st' ∧
      st'.systems = E.mult top (E.make_scale d0 d1 d2) :: rest) ∧
    (∃ st', step E st (Op.rotate axis degrees p) = some st' ∧
      st'.systems = E.mult top
        (if axis = 0 then E.make_rotX (degrees * (E.M_PI / 180))
         else if axis = 1 then E.make_rotY (degrees * (E.M_PI / 180))
         else E.make_rotZ (degrees * (E.M_PI / 180))) :: rest) := by
  refine ⟨?_, ?_, ?_⟩ <;>
    simp [step, exec_op, apply_transform, peek, set_top, hs]

/-- C17 at MOVE(1,2,3) on the initial stack. -/
theorem C17_transform_composes_witness :
    ∃ st', step exprLib (init_state exprLib symtab0) (Op.move 1 2 3 none) = some st' ∧
      st'.systems = [MatExpr.mul MatExpr.ident (MatExpr.translate 1 2 3)] :=
  (C17_transform_composes exprLib (init_state exprLib symtab0) MatExpr.ident [] rfl none
    1 2 3 0 0).1

/-- C18.  On a stack that is not empty, the operations BOX, SPHERE, TORUS and
LINE succeed, leave the whole stack as it was, and leave `tmp` empty
(`tmp->lastcol = 0`). -/
theorem C18_draw_keeps_stack {M : Type} (E : MatrixLib M) (st : State M) (op : Op)
    (hop : op.is_draw = true) (hne : st.systems ≠ []) :
    ∃ st', step E st op = some st' ∧ st'.systems = st.systems ∧ st'.tmp = [] := by
  obtain ⟨x, tl, hs⟩ := List.exists_cons_of_ne_nil hne
  cases op <;> simp [Op.is_draw] at hop <;>
    simp [step, exec_op, draw_solid, peek, hs]

/-- C18 at SPHERE(0,0,0,1) on the initial stack. -/
theorem C18_draw_keeps_stack_witness :
    ∃ st', step exprLib (init_state exprLib symtab0) (Op.sphere 0 0 0 1) = some st' ∧
      st'.systems = (init_state exprLib symtab0).systems ∧ st'.tmp = [] :=
  C18_draw_keeps_stack exprLib (init_state exprLib symtab0) (Op.sphere 0 0 0 1) rfl
    (by simp [init_state, new_stack])

/-- C19.  When `num_frames > 1`: whatever the frames before f did, if they ran,
the operation loop of frame f starts (after the knobs of the frame are
applied) with the stack `[ident]`, of depth 1.  And the frames before f do run,
for every f, as soon as one pass of the operation loop from a new stack
succeeds and the file names of the frames before f fit the buffer
`pic_name[128]`. -/
theorem C19_frames_start_with_identity {M : Type} (E : MatrixLib M) (g : Globals)
    (knobs : Knobs) (ops : List Op) (symtab : String → Option CDouble) (lines : List String)
    (h1 : 1 < g.num_frames) :
    (∀ (f : Nat) (st_f : State M),
      (List.range f).foldlM (frame E g knobs ops) (start_state E symtab lines) = some st_f →
        (apply_knobs st_f (knobs f)).systems = [E.ident] ∧
        (apply_knobs st_f (knobs f)).systems.length = 1) ∧
    (∀ s0, run_ops E (fresh_state E) ops = some s0 →
      ∀ f : Nat, (∀ f', f' < f → ∃ file, pic_name g.name f' = some file) →
        ∃ st_f,
          (List.range f).foldlM (frame E g knobs ops) (start_state E symtab lines)
            = some st_f) := by
  constructor
  · intro f st_f h
    obtain ⟨hsys, _⟩ := frames_start_fresh E g knobs ops (start_state E symtab lines) h1 rfl rfl
      f st_f h
    obtain ⟨σ, e⟩ := apply_knobs_eq (knobs f) st_f
    rw [e]
    simp only [hsys, new_stack, List.length_singleton, and_self]
  · intro s0 hrun f hfit
    obtain ⟨σ, e⟩ := frame_loop_many E g knobs ops h1 s0 hrun f (start_state E symtab lines)
      rfl rfl (by
        intro f' hf'
        obtain ⟨file, hfile⟩ := hfit f' hf'
        rw [hfile, pic_name_eq_some g.name f' file hfile])
    exact ⟨_, e⟩

/-- C19 at [FRAMES 3, MOVE, PUSH, SCALE, PUSH]: one pass leaves a stack of depth
3, and frame 2 starts with the stack `[ident]`. -/
theorem C19_frames_start_with_identity_witness :
    (∃ s0, run_ops exprLib (fresh_state exprLib) unbalanced_ops = some s0 ∧
      s0.systems.length = 3) ∧
    ∃ st_f, (List.range 2).foldlM (frame exprLib ⟨3, "basename"⟩ (fun _ => []) unbalanced_ops)
        (start_state exprLib symtab0 []) = some st_f ∧
      (apply_knobs st_f []).systems = [MatExpr.ident] := by
  have hrun : ∃ s0, run_ops exprLib (fresh_state exprLib) unbalanced_ops = some s0 ∧
      s0.systems.length = 3 := by
    simp [run_ops, unbalanced_ops, step, exec_op, apply_transform, peek, set_top, push,
      fresh_state, new_stack, knob_line]
  refine ⟨hrun, ?_⟩
  obtain ⟨s0, hs0, _⟩ := hrun
  have hC := C19_frames_start_with_identity exprLib ⟨3, "basename"⟩ (fun _ => [])
    unbalanced_ops symtab0 [] (by decide)
  obtain ⟨st_f, hst⟩ := hC.2 s0 hs0 2 (fun f' hf' =>
    ⟨_, pic_name_of_short "basename" f' (by omega) (by decide)⟩)
  exact ⟨st_f, hst, (hC.1 2 st_f hst).1⟩

/-- C20.  If every VARY of the list has integer frames with
0 <= start_frame < end_frame < num_frames, then `second_pass` returns a table
(no access outside the table) in which every node holds a finite value; and
for each VARY every frame visited lies in the table, the divisor of the slope
is not zero, no frame is visited twice and the frames visited are exactly the
integers j with start_frame <= j <= end_frame. -/
theorem C20_second_pass_safe (n : Int) (ops : List Op)
    (h : ∀ p s e v0 v1, Op.vary p s e v0 v1 ∈ ops →
      ∃ si ei : Int, s = (si : ℚ) ∧ e = (ei : ℚ) ∧ 0 ≤ si ∧ si < ei ∧ ei < n) :
    (∃ knobs, second_pass n ops = some knobs ∧
      ∀ (f : Nat), ∀ node ∈ knobs f, node.value ≠ none) ∧
    (∀ p s e v0 v1, Op.vary p s e v0 v1 ∈ ops →
      (∀ j ∈ frame_range s e, 0 ≤ j ∧ j < n) ∧
      ddiv (v0 - v1) (s - e) ≠ none ∧
      (frame_range s e).Nodup ∧
      (∀ j : Int, j ∈ frame_range s e ↔ s ≤ (j : ℚ) ∧ (j : ℚ) ≤ e)) := by
  have hper : ∀ p s e v0 v1, Op.vary p s e v0 v1 ∈ ops →
      (∀ j ∈ frame_range s e, 0 ≤ j ∧ j < n) ∧
      ddiv (v0 - v1) (s - e) ≠ none ∧
      (frame_range s e).Nodup ∧
      (∀ j : Int, j ∈ frame_range s e ↔ s ≤ (j : ℚ) ∧ (j : ℚ) ≤ e) := by
    intro p s e v0 v1 hop
    obtain ⟨si, ei, hs, he, h0, hlt, hn⟩ := h p s e v0 v1 hop
    subst hs he
    have hmem : ∀ j : Int, j ∈ frame_range (si : ℚ) (ei : ℚ) ↔
        (si : ℚ) ≤ (j : ℚ) ∧ (j : ℚ) ≤ (ei : ℚ) := by
      intro j
      rw [mem_frame_range, c_trunc_intCast]
      constructor
      · rintro ⟨a, b⟩
        exact ⟨by exact_mod_cast a, b⟩
      · rintro ⟨a, b⟩
        exact ⟨by exact_mod_cast a, b⟩
    refine ⟨?_, ?_, frame_range_nodup _ _, hmem⟩
    · intro j hj
      obtain ⟨a, b⟩ := (hmem j).mp hj
      have a2 : si ≤ j := by exact_mod_cast a
      have b2 : j ≤ ei := by exact_mod_cast b
      omega
    · have hne : (si : ℚ) - (ei : ℚ) ≠ 0 := by
        have : (si : ℚ) < (ei : ℚ) := by exact_mod_cast hlt
        exact ne_of_lt (by linarith)
      simp [ddiv, hne]
  refine ⟨?_, hper⟩
  have hacc : ∀ op ∈ ops, accesses_ok n op := by
    intro op hop
    cases op with
    | vary p s e v0 v1 =>
      intro j hj
      obtain ⟨a, b⟩ := (hper p s e v0 v1 hop).1 j hj
      exact ⟨a, lt_table_slots n j a b⟩
    | _ => trivial
  refine ⟨_, second_pass_eq n ops hacc, ?_⟩
  intro f node hnode
  simp only [List.mem_reverse, List.mem_filterMap] at hnode
  obtain ⟨op, hop, hn⟩ := hnode
  cases op with
  | vary p s e v0 v1 =>
    have hd := (hper p s e v0 v1 hop).2.1
    simp only [node_at] at hn
    split at hn
    · injection hn with hn
      subst hn
      simp only [vary_value]
      cases hq : ddiv (v0 - v1) (s - e) with
      | none => exact absurd hq hd
      | some d => simp
    · cases hn
  | _ => simp [node_at] at hn

/-- C20 at scenario A and a table of 10 frames. -/
theorem C20_second_pass_safe_witness :
    ∃ knobs, second_pass 10 scenario_A = some knobs ∧
      ∀ (f : Nat), ∀ node ∈ knobs f, node.value ≠ none :=
  (C20_second_pass_safe 10 scenario_A (by
    intro p s e v0 v1 hop
    have h2 : s = 0 ∧ e = 9 := by
      simp [scenario_A] at hop
      exact ⟨hop.2.1, hop.2.2.1⟩
    refine ⟨0, 9, ?_, ?_, by norm_num, by norm_num, by norm_num⟩
    · rw [h2.1]; norm_num
    · rw [h2.2]; norm_num)).1

end Mdl
